import Mathlib

/-!
Verification development for the SLURM change-file digest
(src/slurm_digest/slurm_digest.py): a shallow embedding of the
classification → grouping → range-compression → rendering pipeline,
with theorems checking the natural-language specification against it.

Python strings are modelled as lists of characters (`Str`), Python
`None`-free fallible operations (IndexError / ValueError) as `Option`,
and Python dicts (which preserve insertion order) as association lists.
-/

namespace SlurmDigest

/-- Python strings are modelled as lists of characters. -/
abbrev Str := List Char

/-- Coerce a Lean string literal to the model's string type. -/
def str (s : String) : Str := s.data

/-- The whitespace characters of Python's `str.strip` / `str.split()`
(ASCII subset: space, tab, newline, carriage return, vertical tab, form feed). -/
def isPySpace (c : Char) : Bool :=
  c = ' ' || c = '\t' || c = '\n' || c = '\r' || c = '\x0b' || c = '\x0c'

/-- Python `s.strip()`: remove leading and trailing whitespace. -/
def pyStrip (s : Str) : Str :=
  ((s.dropWhile isPySpace).reverse.dropWhile isPySpace).reverse

/-- Python `s.split()` (no argument): split on whitespace runs, no empty parts.
`acc` is the current word being read, in reverse. -/
def pyWordsAux : Str → Str → List Str
  | [], acc => if acc.isEmpty then [] else [acc.reverse]
  | c :: rest, acc =>
    if isPySpace c then
      if acc.isEmpty then pyWordsAux rest [] else acc.reverse :: pyWordsAux rest []
    else pyWordsAux rest (c :: acc)

/-- Python `s.split()` (no argument). -/
def pyWords (s : Str) : List Str := pyWordsAux s []

/-- Python `s.split(d)` for a one-character delimiter `d`: keeps empty parts,
and the empty string yields `[""]`. -/
def pySplit (d : Char) : Str → List Str
  | [] => [[]]
  | c :: rest =>
    if c = d then [] :: pySplit d rest
    else
      match pySplit d rest with
      | f :: fs => (c :: f) :: fs
      | [] => [[c]]

/-- Python `s.lower()` (ASCII behaviour). -/
def lowerStr (s : Str) : Str := s.map Char.toLower

/-- Python `s.startswith(p)`. -/
def startsWithStr : Str → Str → Bool
  | _, [] => true
  | [], _ :: _ => false
  | c :: s, p :: ps => c = p && startsWithStr s ps

/-- Python's lexicographic string comparison `a <= b` (by code point,
a proper prefix sorts first). -/
def lexLe : Str → Str → Bool
  | [], _ => true
  | _ :: _, [] => false
  | a :: as', b :: bs => if a = b then lexLe as' bs else decide (a < b)

/-- Comparison used by `sorted(keys, key=lambda x: x.lower())`. -/
def ciLe (a b : Str) : Bool := lexLe (lowerStr a) (lowerStr b)

/-- Insert into a list sorted by the boolean comparison `le`. -/
def insertLe (le : Str → Str → Bool) (x : Str) : List Str → List Str
  | [] => [x]
  | y :: ys => if le x y then x :: y :: ys else y :: insertLe le x ys

/-- Insertion sort by the boolean comparison `le`; on lists of pairwise
distinct keys with a total comparison this is Python's `sorted`. -/
def sortLe (le : Str → Str → Bool) (l : List Str) : List Str :=
  l.foldr (insertLe le) []

/-- Python `sorted(keys)`. -/
def sortKeys (l : List Str) : List Str := sortLe lexLe l

/-- Python `sorted(keys, key=lambda x: x.lower())`. -/
def sortKeysCI (l : List Str) : List Str := sortLe ciLe l

/-- Association-list lookup with string keys (a Python dict read). -/
def lookupS {β : Type} : Str → List (Str × β) → Option β
  | _, [] => none
  | k, (k0, v) :: rest => if k0 = k then some v else lookupS k rest

/-- One parsed change-file line: the 7 fields of `FIELDS`, in order
(NOTIFICATION TYPE, SERVICE, HOST, ADDRESS, STATE, DATE/TIME, ADDITIONAL INFO). -/
structure Row where
  notification_type : Str
  service : Str
  host : Str
  address : Str
  state : Str
  date_time : Str
  additional_info : Str
deriving DecidableEq, Repr

/-- The row's fields in the order of `FIELDS` (used by the raw dumps). -/
def rowFields (r : Row) : List Str :=
  [r.notification_type, r.service, r.host, r.address, r.state,
   r.date_time, r.additional_info]

/-! ## The compute-host pattern

`COMPUTE_PATTERN = "n0\d\d\d.[a-z0-9]+$"`, used with `re.search`.
Note the pattern as written in the source: the digit run is `0` followed by
three `\d`, the `.` is an unescaped regex dot (any character except newline),
the character class is lowercase-only, and only the right end is anchored
(`$` matches at the end of the string or just before a final newline). -/

/-- `[a-z0-9]` of the source pattern. -/
def isLowerAlnum (c : Char) : Bool := ('a' ≤ c && c ≤ 'z') || c.isDigit

/-- Drop one final newline if present: the positions where `$` can match. -/
def dropFinalNewline (r : Str) : Str :=
  match r.getLast? with
  | some c => if c = '\n' then r.dropLast else r
  | none => r

/-- Does `[a-z0-9]+$` match the whole of `r`? Since `\n` is not in the class,
this holds exactly when `r`, less an optional final newline, is a nonempty
string of class characters. -/
def classPlusDollar (r : Str) : Bool :=
  !(dropFinalNewline r).isEmpty && (dropFinalNewline r).all isLowerAlnum

/-- Does `COMPUTE_PATTERN` match starting exactly at this suffix?
The unescaped `.` consumes one character other than newline. -/
def computeMatchAt : Str → Bool
  | c0 :: c1 :: d1 :: d2 :: d3 :: c :: rest =>
    c0 = 'n' && c1 = '0' && d1.isDigit && d2.isDigit && d3.isDigit && c ≠ '\n' &&
      classPlusDollar rest
  | _ => false

/-- `re.search(COMPUTE_PATTERN, s)`: the pattern matches at some position. -/
def computeSearch (s : Str) : Bool := s.tails.any computeMatchAt

/-- The compute-host rule as the specification words it (for comparison with
the source pattern): the string ends with the letter `n`, exactly 4 digits,
a literal `.`, then one or more alphanumeric characters, with nothing after. -/
def claimedComputeHost (s : Str) : Bool :=
  s.tails.any fun t =>
    match t with
    | c0 :: d1 :: d2 :: d3 :: d4 :: dot :: rest =>
      c0 = 'n' && d1.isDigit && d2.isDigit && d3.isDigit && d4.isDigit && dot = '.' &&
        !rest.isEmpty && rest.all Char.isAlphanum
    | _ => false

/-! ## Partitioning splits (`get_rows_by_*`)

Each source function builds its buckets with one loop that appends every
row to exactly the chosen bucket; the recursions below produce the same
bucket lists in the same order. -/

/-- Buckets of `get_rows_by_host_type`: `{"COMPUTE": ..., "OTHER": ...}`. -/
structure HostTypeRows where
  compute : List Row
  other : List Row
deriving DecidableEq, Repr

/-- `get_rows_by_host_type`: split by whether the HOST field matches
`COMPUTE_PATTERN` (via `re.search`). -/
def get_rows_by_host_type : List Row → HostTypeRows
  | [] => ⟨[], []⟩
  | row :: rest =>
    let acc := get_rows_by_host_type rest
    if computeSearch row.host then ⟨row :: acc.compute, acc.other⟩
    else ⟨acc.compute, row :: acc.other⟩

/-- Buckets of `get_rows_by_notification_type`. -/
structure NotificationTypeRows where
  problem : List Row
  recovery : List Row
  other : List Row
deriving DecidableEq, Repr

/-- `get_rows_by_notification_type`: split by exact match of the
NOTIFICATION TYPE field against "PROBLEM" / "RECOVERY", else other. -/
def get_rows_by_notification_type : List Row → NotificationTypeRows
  | [] => ⟨[], [], []⟩
  | row :: rest =>
    let acc := get_rows_by_notification_type rest
    if row.notification_type = str "PROBLEM" then ⟨row :: acc.problem, acc.recovery, acc.other⟩
    else if row.notification_type = str "RECOVERY" then ⟨acc.problem, row :: acc.recovery, acc.other⟩
    else ⟨acc.problem, acc.recovery, row :: acc.other⟩

/-- Buckets of `get_rows_by_service`. -/
structure ServiceRows where
  slurm : List Row
  other : List Row
deriving DecidableEq, Repr

/-- `get_rows_by_service`: split by exact match of the SERVICE field
against "SLURM", else other. -/
def get_rows_by_service : List Row → ServiceRows
  | [] => ⟨[], []⟩
  | row :: rest =>
    let acc := get_rows_by_service rest
    if row.service = str "SLURM" then ⟨row :: acc.slurm, acc.other⟩
    else ⟨acc.slurm, row :: acc.other⟩

/-- `SLURM_CATEGORIES` as an association list (insertion order HW, NHC, SW). -/
def SLURM_CATEGORIES : List (Str × Str) :=
  [(str "HW", str "Hardware"), (str "NHC", str "NHC"), (str "SW", str "Software")]

/-- The four bucket lists of `get_rows_by_slurm_category`. Note the source
loop guards on `row[SERVICE] == "SLURM"` with no else branch: a row with a
different service is appended to no bucket at all. -/
def slurmCategorySplit : List Row → List Row × List Row × List Row × List Row
  | [] => ([], [], [], [])
  | row :: rest =>
    let acc := slurmCategorySplit rest
    if row.service = str "SLURM" then
      if startsWithStr row.additional_info (str "Hardware" ++ [':']) then
        (row :: acc.1, acc.2.1, acc.2.2.1, acc.2.2.2)
      else if startsWithStr row.additional_info (str "NHC" ++ [':']) then
        (acc.1, row :: acc.2.1, acc.2.2.1, acc.2.2.2)
      else if startsWithStr row.additional_info (str "Software" ++ [':']) then
        (acc.1, acc.2.1, row :: acc.2.2.1, acc.2.2.2)
      else (acc.1, acc.2.1, acc.2.2.1, row :: acc.2.2.2)
    else acc

/-- `get_rows_by_slurm_category`: the dict
`{"HW": hardware, "NHC": nhc, "SW": software, "OTHER": other}`. -/
def get_rows_by_slurm_category (rows : List Row) : List (Str × List Row) :=
  [(str "HW", (slurmCategorySplit rows).1), (str "NHC", (slurmCategorySplit rows).2.1),
   (str "SW", (slurmCategorySplit rows).2.2.1), (str "OTHER", (slurmCategorySplit rows).2.2.2)]

/-! ## Node extraction (`get_nodes_by_cluster`) -/

/-- Python `int(s)` on an already-stripped string: optional sign, then a
nonempty run of decimal digits (Unicode digits and underscore separators
of CPython are not modelled; no reachable input uses them). `int()` itself
strips surrounding whitespace first. -/
def parsePyInt (s : Str) : Option Int :=
  let t := pyStrip s
  let core : Str → Option Int := fun ds =>
    if ds.isEmpty || !ds.all Char.isDigit then none
    else some (Int.ofNat (ds.foldl (fun acc c => acc * 10 + (c.toNat - '0'.toNat)) 0))
  match t with
  | '-' :: ds => (core ds).map (fun n => -n)
  | '+' :: ds => core ds
  | ds => core ds

/-- Append `n` to the node list of `cluster`, creating the key at the end
of the dict when absent (Python dict insertion-order behaviour). -/
def appendNodeAt : List (Str × List Int) → Str → Int → List (Str × List Int)
  | [], c, n => [(c, [n])]
  | (k, v) :: rest, c, n =>
    if k = c then (k, v ++ [n]) :: rest else (k, v) :: appendNodeAt rest c n

/-- One iteration of the `get_nodes_by_cluster` loop. `none` models the
exceptions the source can raise: a ValueError from unpacking
`host.split(".")` into exactly two names, or a ValueError from `int(...)`. -/
def nodesByClusterStep (m : List (Str × List Int)) (row : Row) :
    Option (List (Str × List Int)) :=
  if computeSearch row.host then
    match (pySplit '.' row.host).map pyStrip with
    | [number, cluster] =>
      match parsePyInt (number.drop 1) with
      | some i => some (appendNodeAt m cluster i)
      | none => none
    | _ => none
  else some m

/-- The `get_nodes_by_cluster` loop over the remaining rows. -/
def nodesByClusterGo (m : List (Str × List Int)) : List Row → Option (List (Str × List Int))
  | [] => some m
  | row :: rest =>
    match nodesByClusterStep m row with
    | some m2 => nodesByClusterGo m2 rest
    | none => none

/-- `get_nodes_by_cluster`: cluster name → list of integer node numbers,
for the rows whose HOST matches `COMPUTE_PATTERN`. -/
def get_nodes_by_cluster (rows : List Row) : Option (List (Str × List Int)) :=
  nodesByClusterGo [] rows

/-! ## Range compression (`get_node_list_string`) -/

/-- Python `str(i)` for an integer. -/
def intStr : Int → Str
  | Int.ofNat n => Nat.toDigits 10 n
  | Int.negSucc m => '-' :: Nat.toDigits 10 (m + 1)

/-- Python `s.zfill(w)`: left-pad with zeros to width `w`, keeping a
leading sign in front of the padding. -/
def zfill (w : Nat) (s : Str) : Str :=
  if w ≤ s.length then s
  else
    match s with
    | c :: rest =>
      if c = '-' || c = '+' then c :: (List.replicate (w - s.length) '0' ++ rest)
      else List.replicate (w - s.length) '0' ++ s
    | [] => List.replicate w '0'

/-- `str_form`: `"n" + str(number).zfill(NODE_NUM_DIGITS)` with
`NODE_NUM_DIGITS = 4`. -/
def strForm (n : Int) : Str := 'n' :: zfill 4 (intStr n)

/-- `get_consecutive_string` on a nonempty `consecutive` tuple. -/
def renderInterval (iv : Int × Int) : Str :=
  if iv.1 = iv.2 then strForm iv.1 else strForm iv.1 ++ ['-'] ++ strForm iv.2

/-- Insert into a strictly sorted list, dropping duplicates: folding this
over the input gives Python's `sorted(list(set(node_list)))`. -/
def insertDedup (x : Int) : List Int → List Int
  | [] => [x]
  | y :: ys =>
    if x = y then y :: ys
    else if x < y then x :: y :: ys
    else y :: insertDedup x ys

/-- `sorted(list(set(node_list)))`. -/
def dedupSort (l : List Int) : List Int := l.foldr insertDedup []

/-- The loop of `get_node_list_string`, started after the first element has
seeded `consecutive`: returns the rendered entries closed so far and the
final open interval. -/
def glsLoop (a b : Int) : List Int → List Str × (Int × Int)
  | [] => ([], (a, b))
  | n :: rest =>
    if n = b + 1 then glsLoop a n rest
    else (renderInterval (a, b) :: (glsLoop n n rest).1, (glsLoop n n rest).2)

/-- `", ".join(entries)`. -/
def joinCommaSpace (l : List Str) : Str := List.intercalate (str ", ") l

/-- `get_node_list_string`: deduplicate and sort, sweep merging consecutive
numbers into intervals, render. On the empty list the source reaches
`get_consecutive_string(())` with the empty tuple and raises an IndexError,
modelled as `none`. -/
def get_node_list_string (node_list : List Int) : Option Str :=
  match dedupSort node_list with
  | [] => none
  | n :: rest =>
    some (joinCommaSpace ((glsLoop n n rest).1 ++ [renderInterval (glsLoop n n rest).2]))

/-- The interval sweep of `get_node_list_string`, kept as data: used to
state what the rendered string denotes. -/
def sweep (a b : Int) : List Int → List (Int × Int)
  | [] => [(a, b)]
  | n :: rest => if n = b + 1 then sweep a n rest else (a, b) :: sweep n n rest

/-- The intervals `get_node_list_string` renders, from the sorted
deduplicated input. -/
def intervalsOfSorted : List Int → List (Int × Int)
  | [] => []
  | n :: rest => sweep n n rest

/-! ## Reason canonicalization and grouping (`get_rows_by_slurm_reason`) -/

/-- Everything after the first `:` (Python `s[s.find(":") + 1:]`, on strings
that contain a colon). -/
def afterFirstColon : Str → Str
  | [] => []
  | c :: rest => if c = ':' then rest else afterFirstColon rest

/-- The canonical reason of a row's ADDITIONAL INFO: strip the recognized
`Hardware:` / `NHC:` / `Software:` label if present, trim, and collapse
whitespace runs to single spaces (`" ".join(reason.split())`). -/
def canonicalReason (info : Str) : Str :=
  let reason :=
    if startsWithStr info (str "Hardware" ++ [':']) ||
        startsWithStr info (str "NHC" ++ [':']) ||
        startsWithStr info (str "Software" ++ [':']) then
      pyStrip (afterFirstColon info)
    else pyStrip info
  List.intercalate (str " ") (pyWords reason)

/-- Append a `(reason, row)` pair under the lowercase key, creating the key
at the end of the dict when absent. -/
def appendPairAt : List (Str × List (Str × Row)) → Str → Str × Row →
    List (Str × List (Str × Row))
  | [], k, p => [(k, [p])]
  | (k0, v) :: rest, k, p =>
    if k0 = k then (k0, v ++ [p]) :: rest else (k0, v) :: appendPairAt rest k p

/-- First pass of `get_rows_by_slurm_reason`: group `(reason, row)` pairs by
the lowercase canonical reason, skipping rows whose service is not SLURM. -/
def reasonPass1 : List Row → List (Str × List (Str × Row)) → List (Str × List (Str × Row))
  | [], m => m
  | row :: rest, m =>
    if row.service = str "SLURM" then
      let reason := canonicalReason row.additional_info
      reasonPass1 rest (appendPairAt m (lowerStr reason) (reason, row))
    else reasonPass1 rest m

/-- Append rows under a display key of the output dict. -/
def appendRowsAt : List (Str × List Row) → Str → List Row → List (Str × List Row)
  | [], k, rs => [(k, rs)]
  | (k0, v) :: rest, k, rs =>
    if k0 = k then (k0, v ++ rs) :: rest else (k0, v) :: appendRowsAt rest k rs

/-- Second pass of `get_rows_by_slurm_reason`: re-key each group by the
display form `pairs[0][0]` (the canonical-cased reason of the first row
encountered for that key). The empty-pairs case is unreachable: the first
pass only ever creates nonempty pair lists. -/
def reasonPass2 : List (Str × List (Str × Row)) → List (Str × List Row) → List (Str × List Row)
  | [], out => out
  | (_, pairs) :: rest, out =>
    match pairs with
    | [] => reasonPass2 rest out
    | (r0, _) :: _ => reasonPass2 rest (appendRowsAt out r0 (pairs.map Prod.snd))

/-- `get_rows_by_slurm_reason`: display reason → rows, grouped
case-insensitively, displayed with first-encountered casing. -/
def get_rows_by_slurm_reason (rows : List Row) : List (Str × List Row) :=
  reasonPass2 (reasonPass1 rows []) []

/-- The display key `pairs[0][0]` the second grouping pass re-keys an entry
by: the canonical-cased reason of the entry's first pair (the empty case is
unreachable, as the first pass only builds nonempty pair lists). -/
def displayKey : List (Str × Row) → Str
  | [] => []
  | pr :: _ => pr.1

/-! ## Renderers (`digest_slurm_problems_html` / `digest_slurm_problems_text`)

The source renderers interleave the tree traversal with string building;
`none` propagates the exceptions `get_nodes_by_cluster` and
`get_node_list_string` can raise. Dict reads `reasons[reason]` and
`clusters[cluster]` iterate the dict's own keys, so the `getD []` default
is never used. -/

/-- The cluster loop of the HTML renderer, over the sorted cluster keys. -/
def clustersHtml (m : List (Str × List Int)) : List Str → Option Str
  | [] => some []
  | c :: cs =>
    match get_node_list_string ((lookupS c m).getD []), clustersHtml m cs with
    | some s, some rest =>
      some (str "<b>" ++ c ++ str "</b>" ++ str ": " ++ s ++ str "<br>" ++ rest)
    | _, _ => none

/-- The reason loop of the HTML renderer, over the sorted reason keys. -/
def reasonsHtml (groups : List (Str × List Row)) : List Str → Option Str
  | [] => some []
  | r :: rs =>
    match get_nodes_by_cluster ((lookupS r groups).getD []) with
    | none => none
    | some clusters =>
      match clustersHtml clusters (sortKeys (clusters.map Prod.fst)), reasonsHtml groups rs with
      | some ch, some rest =>
        some (str "<tr>" ++ str "<td><b>" ++ r ++ str "</b></td>" ++ str "<td>" ++ ch ++
          str "</td>" ++ str "</tr>" ++ rest)
      | _, _ => none

/-- The category header cell of the HTML renderer. -/
def categoryHeaderHtml (cat : Str) : Str :=
  match lookupS cat SLURM_CATEGORIES with
  | some lbl => str "<th colspan=\"2\">" ++ lbl ++ str " Issues</th>"
  | none => str "<th colspan=\"2\">Other Issues</th>"

/-- The category loop of the HTML renderer. -/
def catsHtml : List (Str × List Row) → Option Str
  | [] => some []
  | (cat, rows) :: rest =>
    match reasonsHtml (get_rows_by_slurm_reason rows)
        (sortKeysCI ((get_rows_by_slurm_reason rows).map Prod.fst)), catsHtml rest with
    | some rh, some more => some (str "<tr>" ++ categoryHeaderHtml cat ++ str "</tr>" ++ rh ++ more)
    | _, _ => none

/-- `digest_slurm_problems_html`. -/
def digest_slurm_problems_html (slurm_rows : List (Str × List Row)) : Option Str :=
  (catsHtml slurm_rows).map fun body =>
    str "<h2>SLURM Problems</h2>" ++ str "<table border=\"1\">" ++ body ++ str "</table>"

/-- The cluster loop of the plaintext renderer. -/
def clustersText (m : List (Str × List Int)) : List Str → Option Str
  | [] => some []
  | c :: cs =>
    match get_node_list_string ((lookupS c m).getD []), clustersText m cs with
    | some s, some rest => some (str "\t\t\t" ++ c ++ str ": " ++ s ++ str "\n" ++ rest)
    | _, _ => none

/-- The reason loop of the plaintext renderer. -/
def reasonsText (groups : List (Str × List Row)) : List Str → Option Str
  | [] => some []
  | r :: rs =>
    match get_nodes_by_cluster ((lookupS r groups).getD []) with
    | none => none
    | some clusters =>
      match clustersText clusters (sortKeys (clusters.map Prod.fst)), reasonsText groups rs with
      | some ct, some rest => some (str "\t\t" ++ r ++ str "\n" ++ ct ++ rest)
      | _, _ => none

/-- The category header line of the plaintext renderer (note: recognized
categories get a leading blank line, the fallback does not). -/
def categoryHeaderText (cat : Str) : Str :=
  match lookupS cat SLURM_CATEGORIES with
  | some lbl => str "\n\t" ++ lbl ++ str " Issues\n"
  | none => str "\tOther Issues\n"

/-- The category loop of the plaintext renderer. -/
def catsText : List (Str × List Row) → Option Str
  | [] => some []
  | (cat, rows) :: rest =>
    match reasonsText (get_rows_by_slurm_reason rows)
        (sortKeysCI ((get_rows_by_slurm_reason rows).map Prod.fst)), catsText rest with
    | some rt, some more => some (categoryHeaderText cat ++ rt ++ more)
    | _, _ => none

/-- `digest_slurm_problems_text`. -/
def digest_slurm_problems_text (slurm_rows : List (Str × List Row)) : Option Str :=
  (catsText slurm_rows).map fun body => str "\nSLURM Problems\n" ++ body

/-! ## The common content tree of the two renderers

Both renderers traverse the same data in the same order; the tree below
records exactly that shared content — category label, reasons in
case-insensitive alphabetical order, clusters in alphabetical order, and
the compressed range string of each cluster — so that each renderer can be
proved equal to a pure serialization of it. -/

/-- Per-reason content: `(cluster name, compressed range string)` pairs. -/
abbrev ClusterContent := List (Str × Str)

/-- Per-category content: `(reason display string, clusters)` pairs. -/
abbrev ReasonContent := List (Str × ClusterContent)

/-- Whole-digest content: `(category label, reasons)` pairs. -/
abbrev DigestContent := List (Str × ReasonContent)

/-- The category label both renderers display. -/
def categoryLabel (cat : Str) : Str :=
  match lookupS cat SLURM_CATEGORIES with
  | some lbl => lbl ++ str " Issues"
  | none => str "Other Issues"

/-- Cluster-level content, over the sorted cluster keys. -/
def clustersContent (m : List (Str × List Int)) : List Str → Option ClusterContent
  | [] => some []
  | c :: cs =>
    match get_node_list_string ((lookupS c m).getD []), clustersContent m cs with
    | some s, some rest => some ((c, s) :: rest)
    | _, _ => none

/-- Reason-level content, over the sorted reason keys. -/
def reasonsContent (groups : List (Str × List Row)) : List Str → Option ReasonContent
  | [] => some []
  | r :: rs =>
    match get_nodes_by_cluster ((lookupS r groups).getD []) with
    | none => none
    | some clusters =>
      match clustersContent clusters (sortKeys (clusters.map Prod.fst)),
          reasonsContent groups rs with
      | some cc, some rest => some ((r, cc) :: rest)
      | _, _ => none

/-- The content tree both renderers serialize. -/
def digestContent : List (Str × List Row) → Option DigestContent
  | [] => some []
  | (cat, rows) :: rest =>
    match reasonsContent (get_rows_by_slurm_reason rows)
        (sortKeysCI ((get_rows_by_slurm_reason rows).map Prod.fst)), digestContent rest with
    | some rc, some more => some ((categoryLabel cat, rc) :: more)
    | _, _ => none

/-- The HTML serialization of cluster content. -/
def renderClustersHtml : ClusterContent → Str
  | [] => []
  | (c, s) :: rest =>
    str "<b>" ++ c ++ str "</b>" ++ str ": " ++ s ++ str "<br>" ++ renderClustersHtml rest

/-- The HTML serialization of reason content. -/
def renderReasonsHtml : ReasonContent → Str
  | [] => []
  | (r, cc) :: rest =>
    str "<tr>" ++ str "<td><b>" ++ r ++ str "</b></td>" ++ str "<td>" ++
      renderClustersHtml cc ++ str "</td>" ++ str "</tr>" ++ renderReasonsHtml rest

/-- The HTML serialization of the content tree. -/
def renderCatsHtml : DigestContent → Str
  | [] => []
  | (lbl, rc) :: rest =>
    str "<tr>" ++ str "<th colspan=\"2\">" ++ lbl ++ str "</th>" ++ str "</tr>" ++
      renderReasonsHtml rc ++ renderCatsHtml rest

/-- The HTML digest as a pure function of the content tree. -/
def renderContentHtml (t : DigestContent) : Str :=
  str "<h2>SLURM Problems</h2>" ++ str "<table border=\"1\">" ++ renderCatsHtml t ++
    str "</table>"

/-- The plaintext serialization of cluster content. -/
def renderClustersText : ClusterContent → Str
  | [] => []
  | (c, s) :: rest => str "\t\t\t" ++ c ++ str ": " ++ s ++ str "\n" ++ renderClustersText rest

/-- The plaintext serialization of reason content. -/
def renderReasonsText : ReasonContent → Str
  | [] => []
  | (r, cc) :: rest => str "\t\t" ++ r ++ str "\n" ++ renderClustersText cc ++ renderReasonsText rest

/-- The plaintext serialization of the content tree. The fallback label is
the one category header printed without a leading blank line. -/
def renderCatsText : DigestContent → Str
  | [] => []
  | (lbl, rc) :: rest =>
    (if lbl = str "Other Issues" then str "\t" ++ lbl ++ str "\n"
     else str "\n\t" ++ lbl ++ str "\n") ++ renderReasonsText rc ++ renderCatsText rest

/-- The plaintext digest as a pure function of the content tree. -/
def renderContentText (t : DigestContent) : Str :=
  str "\nSLURM Problems\n" ++ renderCatsText t

/-! ## Parsing (`parse_change_file`) and the plaintext raw dump -/

/-- One line of `parse_change_file`: split on the delimiter, then read the
seven field indices of `FIELDS` in order and strip each. `none` models the
IndexError raised by `field_values[...]` when the line has fewer than 7
fields; extra fields beyond the seventh are silently ignored. -/
def parse_change_line (delim : Char) (line : Str) : Option Row := do
  let fs := pySplit delim line
  let f0 ← fs[0]?
  let f1 ← fs[1]?
  let f2 ← fs[2]?
  let f3 ← fs[3]?
  let f4 ← fs[4]?
  let f5 ← fs[5]?
  let f6 ← fs[6]?
  some ⟨pyStrip f0, pyStrip f1, pyStrip f2, pyStrip f3, pyStrip f4, pyStrip f5, pyStrip f6⟩

/-- `parse_change_file` over the file's lines. -/
def parse_change_file (delim : Char) : List Str → Option (List Row)
  | [] => some []
  | line :: rest => do
    let row ← parse_change_line delim line
    let rows ← parse_change_file delim rest
    some (row :: rows)

/-- `FIELDS.keys()` in insertion order. -/
def FIELD_HEADERS : List Str :=
  [str "NOTIFICATION TYPE", str "SERVICE", str "HOST", str "ADDRESS", str "STATE",
   str "DATE/TIME", str "ADDITIONAL INFO"]

/-- Python `str(n)` for a natural number. -/
def natStr (n : Nat) : Str := Nat.toDigits 10 n

/-- The per-row lines of one raw dump in `get_digest_text`. -/
def rowsDumpText : List Row → Str
  | [] => []
  | r :: rest => List.intercalate (str ", ") (rowFields r) ++ str "\n" ++ rowsDumpText rest

/-- One notification type's raw dump in `get_digest_text`: count line,
header line, then one comma-joined line per row. -/
def rawDumpText (rows : List Row) (phrase : Str) : Str :=
  str "\nThere are " ++ natStr rows.length ++ phrase ++ str "\n" ++
    List.intercalate (str ", ") FIELD_HEADERS ++ str "\n" ++ rowsDumpText rows

/-- `get_digest_text`: the categorized digest built from the problem rows,
followed by the three raw dumps. -/
def get_digest_text (problem_rows recovery_rows other_rows : List Row) : Option Str := do
  let slurm_rows := get_rows_by_slurm_category (get_rows_by_service problem_rows).slurm
  let dig ← digest_slurm_problems_text slurm_rows
  some (str "SLURM Digest\n" ++ dig ++ str "\nRaw Output\n" ++
    rawDumpText problem_rows (str " new problems:") ++
    rawDumpText recovery_rows (str " new recoveries:") ++
    rawDumpText other_rows (str " other new changes:"))

/-! ## Concrete rows used by the claims -/

/-- First row of the end-to-end scenario, exactly as the specification
gives it (host cluster suffix `clusterA`, with an uppercase `A`). -/
def c6row1 : Row :=
  ⟨str "PROBLEM", str "SLURM", str "n0010.clusterA", str "", str "DOWN", str "t1",
   str "Hardware: Fan failure"⟩

/-- Second row of the end-to-end scenario, as the specification gives it. -/
def c6row2 : Row :=
  ⟨str "PROBLEM", str "SLURM", str "n0011.clusterA", str "", str "DOWN", str "t2",
   str "Hardware: fan failure"⟩

/-- The first scenario row with the cluster suffix lowercased. -/
def c6row1lc : Row :=
  ⟨str "PROBLEM", str "SLURM", str "n0010.clustera", str "", str "DOWN", str "t1",
   str "Hardware: Fan failure"⟩

/-- The second scenario row with the cluster suffix lowercased. -/
def c6row2lc : Row :=
  ⟨str "PROBLEM", str "SLURM", str "n0011.clustera", str "", str "DOWN", str "t2",
   str "Hardware: fan failure"⟩

/-- A row whose service is not SLURM (dropped by the sub-category split). -/
def rowServiceX : Row :=
  ⟨str "PROBLEM", str "X", str "n0010.clustera", str "", str "DOWN", str "t1", str "info"⟩

/-- A row whose host matches `COMPUTE_PATTERN` only because `re.search` is
unanchored on the left: the extra dot makes `host.split(".")` produce three
parts. -/
def rowExtraDot : Row :=
  ⟨str "PROBLEM", str "SLURM", str "a.n0123.bc", str "", str "DOWN", str "t1", str "info"⟩

/-- A well-formed compute host with leading zeros in the node number. -/
def rowN0007 : Row :=
  ⟨str "PROBLEM", str "SLURM", str "n0007.clustera", str "", str "DOWN", str "t1", str "info"⟩

/-! ## General lemmas: insertion sort, deduplicating sort, interval sweep -/

theorem lexLe_total (a b : Str) : lexLe a b = true ∨ lexLe b a = true := by
  induction a generalizing b with
  | nil => exact Or.inl rfl
  | cons x xs ih =>
    cases b with
    | nil => exact Or.inr rfl
    | cons y ys =>
      by_cases hxy : x = y
      · subst hxy
        simpa [lexLe] using ih ys
      · rcases lt_trichotomy x y with h | h | h
        · exact Or.inl (by simp only [lexLe, if_neg hxy]; exact decide_eq_true h)
        · exact absurd h hxy
        · exact Or.inr (by simp only [lexLe, if_neg (Ne.symm hxy)]; exact decide_eq_true h)

theorem ciLe_total (a b : Str) : ciLe a b = true ∨ ciLe b a = true :=
  lexLe_total (lowerStr a) (lowerStr b)

theorem insertLe_perm (le : Str → Str → Bool) (x : Str) :
    ∀ l, (insertLe le x l).Perm (x :: l)
  | [] => List.Perm.refl _
  | y :: ys => by
    by_cases h : le x y = true
    · simp [insertLe, h]
    · simp only [insertLe, if_neg h]
      exact (List.Perm.cons y (insertLe_perm le x ys)).trans (List.Perm.swap x y ys)

theorem chain'_insertLe (le : Str → Str → Bool)
    (htot : ∀ a b : Str, le a b = true ∨ le b a = true) (x : Str) :
    ∀ l, List.Chain' (fun a b => le a b = true) l →
      List.Chain' (fun a b => le a b = true) (insertLe le x l)
  | [], _ => by simp [insertLe]
  | y :: ys, hch => by
    have hyx : le x y = true ∨ le y x = true := htot x y
    by_cases h : le x y = true
    · simp only [insertLe, if_pos h]
      exact List.chain'_cons.mpr ⟨h, hch⟩
    · have hyx : le y x = true := hyx.resolve_left h
      simp only [insertLe, if_neg h]
      rw [List.chain'_cons']
      refine ⟨?_, chain'_insertLe le htot x ys hch.tail⟩
      intro z hz
      cases ys with
      | nil => simp [insertLe] at hz; subst hz; exact hyx
      | cons w ws =>
        by_cases hw : le x w = true
        · simp [insertLe, hw] at hz
          subst hz; exact hyx
        · simp [insertLe, hw] at hz
          subst hz
          exact (List.chain'_cons.mp hch).1

theorem sortLe_perm (le : Str → Str → Bool) (l : List Str) : (sortLe le l).Perm l := by
  induction l with
  | nil => exact List.Perm.refl _
  | cons x xs ih =>
    simp only [sortLe, List.foldr_cons]
    exact (insertLe_perm le x _).trans (List.Perm.cons x ih)

theorem sortLe_chain' (le : Str → Str → Bool)
    (htot : ∀ a b : Str, le a b = true ∨ le b a = true) (l : List Str) :
    List.Chain' (fun a b => le a b = true) (sortLe le l) := by
  induction l with
  | nil => simp [sortLe]
  | cons x xs ih =>
    simp only [sortLe, List.foldr_cons]
    exact chain'_insertLe le htot x _ ih

theorem mem_insertDedup (x : Int) : ∀ (l : List Int) (y : Int),
    y ∈ insertDedup x l ↔ y = x ∨ y ∈ l
  | [], y => by simp [insertDedup]
  | z :: zs, y => by
    by_cases hxz : x = z
    · subst hxz
      rw [show insertDedup x (x :: zs) = x :: zs from by simp [insertDedup]]
      simp only [List.mem_cons]
      tauto
    · by_cases hlt : x < z
      · simp only [insertDedup, if_neg hxz, if_pos hlt, List.mem_cons]
      · simp only [insertDedup, if_neg hxz, if_neg hlt, List.mem_cons, mem_insertDedup x zs y]
        tauto

theorem pairwise_insertDedup (x : Int) : ∀ (l : List Int),
    List.Pairwise (· < ·) l → List.Pairwise (· < ·) (insertDedup x l)
  | [], _ => by simp [insertDedup]
  | z :: zs, hp => by
    obtain ⟨hz, hzs⟩ := List.pairwise_cons.mp hp
    by_cases hxz : x = z
    · subst hxz
      simpa [insertDedup] using hp
    · by_cases hlt : x < z
      · simp only [insertDedup, if_neg hxz, if_pos hlt]
        refine List.pairwise_cons.mpr ⟨?_, hp⟩
        intro b hb
        rcases List.mem_cons.mp hb with rfl | hb
        · exact hlt
        · exact hlt.trans (hz b hb)
      · have hzx : z < x := by
          rcases lt_trichotomy x z with h | h | h
          · exact absurd h hlt
          · exact absurd h hxz
          · exact h
        simp only [insertDedup, if_neg hxz, if_neg hlt]
        refine List.pairwise_cons.mpr ⟨?_, pairwise_insertDedup x zs hzs⟩
        intro b hb
        rcases (mem_insertDedup x zs b).mp hb with rfl | hb
        · exact hzx
        · exact hz b hb

theorem mem_dedupSort (l : List Int) (y : Int) : y ∈ dedupSort l ↔ y ∈ l := by
  induction l with
  | nil => simp [dedupSort]
  | cons x xs ih =>
    simp only [dedupSort, List.foldr_cons] at *
    rw [mem_insertDedup, ih, List.mem_cons]

theorem pairwise_dedupSort (l : List Int) : List.Pairwise (· < ·) (dedupSort l) := by
  induction l with
  | nil => simp [dedupSort]
  | cons x xs ih =>
    simp only [dedupSort, List.foldr_cons] at *
    exact pairwise_insertDedup x _ ih

theorem sweep_head : ∀ (l : List Int) (a b : Int), ∃ y t, sweep a b l = (a, y) :: t
  | [], a, b => ⟨b, [], rfl⟩
  | n :: rest, a, b => by
    by_cases h : n = b + 1
    · simpa [sweep, h] using sweep_head rest a n
    · exact ⟨b, sweep n n rest, by simp [sweep, h]⟩

theorem sweep_cover : ∀ (l : List Int) (a b : Int), a ≤ b →
    List.Chain' (· < ·) (b :: l) → ∀ x : Int,
      (∃ iv ∈ sweep a b l, iv.1 ≤ x ∧ x ≤ iv.2) ↔ ((a ≤ x ∧ x ≤ b) ∨ x ∈ l)
  | [], a, b, _, _, x => by simp [sweep]
  | n :: rest, a, b, hab, hch, x => by
    obtain ⟨hbn, hch'⟩ := List.chain'_cons.mp hch
    by_cases h : n = b + 1
    · subst h
      rw [show sweep a b ((b + 1) :: rest) = sweep a (b + 1) rest from by simp [sweep]]
      rw [sweep_cover rest a (b + 1) (by omega) hch' x]
      simp only [List.mem_cons]
      constructor
      · rintro (⟨h1, h2⟩ | h3)
        · rcases lt_or_le x (b + 1) with hx | hx
          · exact Or.inl ⟨h1, by omega⟩
          · exact Or.inr (Or.inl (by omega))
        · exact Or.inr (Or.inr h3)
      · rintro (⟨h1, h2⟩ | rfl | h3)
        · exact Or.inl ⟨h1, by omega⟩
        · exact Or.inl ⟨by omega, by omega⟩
        · exact Or.inr h3
    · rw [show sweep a b (n :: rest) = (a, b) :: sweep n n rest from by simp [sweep, h]]
      have hcov := sweep_cover rest n n le_rfl hch' x
      constructor
      · rintro ⟨iv, hiv, h1, h2⟩
        rcases List.mem_cons.mp hiv with rfl | hiv
        · exact Or.inl ⟨h1, h2⟩
        · rcases hcov.mp ⟨iv, hiv, h1, h2⟩ with ⟨ha, hb⟩ | h3
          · exact Or.inr (by rw [show x = n from by omega]; exact List.mem_cons_self _ _)
          · exact Or.inr (List.mem_cons_of_mem _ h3)
      · rintro (⟨h1, h2⟩ | hx)
        · exact ⟨(a, b), List.mem_cons_self _ _, h1, h2⟩
        · rcases List.mem_cons.mp hx with rfl | h3
          · obtain ⟨iv, hiv, hb⟩ := hcov.mpr (Or.inl ⟨le_rfl, le_rfl⟩)
            exact ⟨iv, List.mem_cons_of_mem _ hiv, hb⟩
          · obtain ⟨iv, hiv, hb⟩ := hcov.mpr (Or.inr h3)
            exact ⟨iv, List.mem_cons_of_mem _ hiv, hb⟩

theorem sweep_good : ∀ (l : List Int) (a b : Int), a ≤ b →
    List.Chain' (· < ·) (b :: l) →
      (∀ iv ∈ sweep a b l, iv.1 ≤ iv.2) ∧
        List.Chain' (fun p q : Int × Int => p.2 + 1 < q.1) (sweep a b l)
  | [], a, b, hab, _ => by simp [sweep, hab]
  | n :: rest, a, b, hab, hch => by
    obtain ⟨hbn, hch'⟩ := List.chain'_cons.mp hch
    by_cases h : n = b + 1
    · subst h
      rw [show sweep a b ((b + 1) :: rest) = sweep a (b + 1) rest from by simp [sweep]]
      exact sweep_good rest a (b + 1) (by omega) hch'
    · rw [show sweep a b (n :: rest) = (a, b) :: sweep n n rest from by simp [sweep, h]]
      obtain ⟨hgood, hchain⟩ := sweep_good rest n n le_rfl hch'
      obtain ⟨y, t, hst⟩ := sweep_head rest n n
      constructor
      · intro iv hiv
        rcases List.mem_cons.mp hiv with rfl | hiv
        · exact hab
        · exact hgood iv hiv
      · rw [hst] at hchain ⊢
        exact List.chain'_cons.mpr ⟨by simp; omega, hchain⟩

theorem glsLoop_sweep : ∀ (l : List Int) (a b : Int),
    (glsLoop a b l).1 ++ [renderInterval (glsLoop a b l).2] =
      (sweep a b l).map renderInterval
  | [], a, b => rfl
  | n :: rest, a, b => by
    by_cases h : n = b + 1
    · simpa [glsLoop, sweep, h] using glsLoop_sweep rest a n
    · simpa [glsLoop, sweep, h] using glsLoop_sweep rest n n

/-! ## Lemmas about the compute-host pattern -/

theorem dropFinalNewline_concat (u : Str) (c : Char) :
    dropFinalNewline (u ++ [c]) = if c = '\n' then u else u ++ [c] := by
  unfold dropFinalNewline
  rw [List.getLast?_concat]
  by_cases h : c = '\n'
  · simp [h]
  · simp [h]

theorem classPlusDollar_iff (t : Str) :
    classPlusDollar t = true ↔
      ∃ u v, t = u ++ v ∧ u ≠ [] ∧ u.all isLowerAlnum = true ∧ (v = [] ∨ v = ['\n']) := by
  constructor
  · intro h
    unfold classPlusDollar at h
    rw [Bool.and_eq_true] at h
    obtain ⟨hne, hall⟩ := h
    rcases t.eq_nil_or_concat with rfl | ⟨u0, c, rfl⟩
    · simp [dropFinalNewline] at hne
    · rw [List.concat_eq_append] at hne hall ⊢
      rw [dropFinalNewline_concat] at hne hall
      by_cases hc : c = '\n'
      · rw [if_pos hc] at hne hall
        subst hc
        refine ⟨u0, ['\n'], rfl, ?_, hall, Or.inr rfl⟩
        intro h0
        rw [h0] at hne
        simp at hne
      · rw [if_neg hc] at hne hall
        exact ⟨u0 ++ [c], [], by simp, by simp, hall, Or.inl rfl⟩
  · rintro ⟨u, v, rfl, hu, hall, hv | hv⟩
    · subst hv
      rcases u.eq_nil_or_concat with rfl | ⟨u0, c, rfl⟩
      · exact absurd rfl hu
      · rw [List.concat_eq_append] at hu hall ⊢
        have hc : isLowerAlnum c = true :=
          (List.all_eq_true.mp hall) c (by simp)
        have hcn : ¬(c = '\n') := by
          intro hEq
          rw [hEq] at hc
          exact absurd hc (by decide)
        unfold classPlusDollar
        rw [List.append_nil, dropFinalNewline_concat, if_neg hcn]
        simp only [Bool.and_eq_true]
        exact ⟨by simp, hall⟩
    · subst hv
      unfold classPlusDollar
      rw [dropFinalNewline_concat, if_pos rfl]
      simp only [Bool.and_eq_true]
      refine ⟨?_, hall⟩
      cases u with
      | nil => exact absurd rfl hu
      | cons a u' => simp

theorem computeMatchAt_iff (t : Str) :
    computeMatchAt t = true ↔
      ∃ d1 d2 d3 c rest, t = 'n' :: '0' :: d1 :: d2 :: d3 :: c :: rest ∧
        d1.isDigit = true ∧ d2.isDigit = true ∧ d3.isDigit = true ∧ ¬(c = '\n') ∧
        classPlusDollar rest = true := by
  rcases t with _ | ⟨c0, _ | ⟨c1, _ | ⟨d1, _ | ⟨d2, _ | ⟨d3, _ | ⟨c, rest⟩⟩⟩⟩⟩⟩ <;>
    simp only [computeMatchAt, Bool.and_eq_true, decide_eq_true_eq]
  · simp
  · simp
  · simp
  · simp
  · simp
  · simp
  · constructor
    · rintro ⟨⟨⟨⟨⟨⟨rfl, rfl⟩, hd1⟩, hd2⟩, hd3⟩, hc⟩, hr⟩
      exact ⟨d1, d2, d3, c, rest, rfl, hd1, hd2, hd3, hc, hr⟩
    · rintro ⟨e1, e2, e3, e, r, heq, h1, h2, h3, hc, hr⟩
      obtain ⟨rfl, rfl, rfl, rfl, rfl, rfl, rfl⟩ := by
        simpa using heq
      exact ⟨⟨⟨⟨⟨⟨rfl, rfl⟩, h1⟩, h2⟩, h3⟩, hc⟩, hr⟩

theorem computeSearch_iff (s : Str) :
    computeSearch s = true ↔ ∃ p t, s = p ++ t ∧ computeMatchAt t = true := by
  unfold computeSearch
  rw [List.any_eq_true]
  constructor
  · rintro ⟨t, ht, hmatch⟩
    obtain ⟨p, hp⟩ := (List.mem_tails _ _).mp ht
    exact ⟨p, t, hp.symm, hmatch⟩
  · rintro ⟨p, t, rfl, hmatch⟩
    exact ⟨t, (List.mem_tails _ _).mpr ⟨p, rfl⟩, hmatch⟩

/-! ## Lemmas about `get_nodes_by_cluster` -/

theorem appendNodeAt_nonempty : ∀ (m : List (Str × List Int)) (c : Str) (n : Int),
    (∀ kv ∈ m, kv.2 ≠ []) → ∀ kv ∈ appendNodeAt m c n, kv.2 ≠ []
  | [], c, n, _, kv, hkv => by
    simp only [appendNodeAt, List.mem_singleton] at hkv
    subst hkv
    simp
  | (k, v) :: rest, c, n, hm, kv, hkv => by
    by_cases h : k = c
    · simp only [appendNodeAt, if_pos h, List.mem_cons] at hkv
      rcases hkv with rfl | hkv
      · simp
      · exact hm kv (List.mem_cons_of_mem _ hkv)
    · simp only [appendNodeAt, if_neg h, List.mem_cons] at hkv
      rcases hkv with rfl | hkv
      · exact hm (k, v) (List.mem_cons_self _ _)
      · exact appendNodeAt_nonempty rest c n
          (fun kv' hkv' => hm kv' (List.mem_cons_of_mem _ hkv')) kv hkv

theorem nodesByClusterStep_nonempty (m m2 : List (Str × List Int)) (row : Row)
    (hstep : nodesByClusterStep m row = some m2) (hm : ∀ kv ∈ m, kv.2 ≠ []) :
    ∀ kv ∈ m2, kv.2 ≠ [] := by
  unfold nodesByClusterStep at hstep
  split at hstep
  · split at hstep
    · split at hstep
      · injection hstep with h
        subst h
        exact appendNodeAt_nonempty m _ _ hm
      · exact absurd hstep (by simp)
    · exact absurd hstep (by simp)
  · injection hstep with h
    subst h
    exact hm

theorem nodesByClusterGo_nonempty : ∀ (rows : List Row) (m0 m : List (Str × List Int)),
    (∀ kv ∈ m0, kv.2 ≠ []) → nodesByClusterGo m0 rows = some m → ∀ kv ∈ m, kv.2 ≠ []
  | [], m0, m, hm0, hgo => by
    simp only [nodesByClusterGo] at hgo
    injection hgo with h
    subst h
    exact hm0
  | row :: rest, m0, m, hm0, hgo => by
    simp only [nodesByClusterGo] at hgo
    split at hgo
    · exact nodesByClusterGo_nonempty rest _ m
        (nodesByClusterStep_nonempty m0 _ row (by assumption) hm0) hgo
    · exact absurd hgo (by simp)

/-! ## Claim theorems -/

/-- C1, counterexample: the claimed classification rule — compute iff the
host ends with `n`, exactly 4 digits, a literal dot and a nonempty
alphanumeric tail — disagrees with the source's `COMPUTE_PATTERN` at the
host `"n1234.abc"`: the claim's rule accepts it, but the source pattern
requires the first of the four digits to be `0` and so rejects it. -/
theorem C1_counterexample :
    ¬(computeSearch (str "n1234.abc") = true ↔
      claimedComputeHost (str "n1234.abc") = true) := by
  decide

/-- C1, amended: a host is classified as compute iff the string ends with
`n`, `0`, three further digits, one arbitrary character other than newline
(the unescaped regex dot), and a nonempty run of lowercase-alphanumeric
characters, optionally followed by one final newline (the `$` anchor); in
particular `"n12345.clusterB"` is classified as non-compute, while e.g.
`"n0123.clustera"` is compute. -/
theorem C1_compute_pattern :
    (∀ s : Str, computeSearch s = true ↔
      ∃ p d1 d2 d3 c u v, s = p ++ 'n' :: '0' :: d1 :: d2 :: d3 :: c :: (u ++ v) ∧
        d1.isDigit = true ∧ d2.isDigit = true ∧ d3.isDigit = true ∧ ¬(c = '\n') ∧
        u ≠ [] ∧ u.all isLowerAlnum = true ∧ (v = [] ∨ v = ['\n'])) ∧
    computeSearch (str "n12345.clusterB") = false ∧
    computeSearch (str "n0123.clustera") = true := by
  refine ⟨?_, by decide, by decide⟩
  intro s
  rw [computeSearch_iff]
  constructor
  · rintro ⟨p, t, rfl, hm⟩
    obtain ⟨d1, d2, d3, c, rest, rfl, h1, h2, h3, hc, hcd⟩ := (computeMatchAt_iff _).mp hm
    obtain ⟨u, v, rfl, hu, hall, hv⟩ := (classPlusDollar_iff _).mp hcd
    exact ⟨p, d1, d2, d3, c, u, v, rfl, h1, h2, h3, hc, hu, hall, hv⟩
  · rintro ⟨p, d1, d2, d3, c, u, v, rfl, h1, h2, h3, hc, hu, hall, hv⟩
    exact ⟨p, _, rfl, (computeMatchAt_iff _).mpr ⟨d1, d2, d3, c, u ++ v, rfl, h1, h2, h3, hc,
      (classPlusDollar_iff _).mpr ⟨u, v, rfl, hu, hall, hv⟩⟩⟩

/-- C2, counterexample: on the empty list of node numbers the claim's
universally-quantified rendering property fails — `get_node_list_string`
reaches `get_consecutive_string` with the empty tuple and raises an
IndexError (modelled `none`) instead of rendering anything. -/
theorem C2_counterexample : get_node_list_string ([] : List Int) = none := rfl

/-- C2, amended: for every nonempty list of node numbers,
`get_node_list_string` renders the comma-separated interval list produced
by deduplicating, sorting and sweeping the input; the intervals are
well-formed (`start ≤ end`), pairwise disjoint and in ascending order with
gaps between them, and their union is exactly the set of input elements.
Each interval is rendered by `renderInterval`: bounds zero-padded to 4
digits and prefixed with `n`, a singleton as one node, a longer run as
`"start-end"`. (On the empty list the source raises instead.) -/
theorem C2_range_compression (l : List Int) (hne : l ≠ []) :
    ∃ s, get_node_list_string l = some s ∧
      s = joinCommaSpace ((intervalsOfSorted (dedupSort l)).map renderInterval) ∧
      (∀ iv ∈ intervalsOfSorted (dedupSort l), iv.1 ≤ iv.2) ∧
      List.Chain' (fun p q : Int × Int => p.2 + 1 < q.1) (intervalsOfSorted (dedupSort l)) ∧
      (∀ x : Int, (∃ iv ∈ intervalsOfSorted (dedupSort l), iv.1 ≤ x ∧ x ≤ iv.2) ↔ x ∈ l) := by
  obtain ⟨n, rest, hds⟩ : ∃ n rest, dedupSort l = n :: rest := by
    cases hd : dedupSort l with
    | nil =>
      obtain ⟨x, hx⟩ := List.exists_mem_of_ne_nil l hne
      exact absurd ((mem_dedupSort l x).mpr hx) (by simp [hd])
    | cons n rest => exact ⟨n, rest, rfl⟩
  have hch : List.Chain' (· < ·) (n :: rest) := by
    have hp := pairwise_dedupSort l
    rw [hds] at hp
    exact hp.chain'
  have hmap := glsLoop_sweep rest n n
  have hiv : intervalsOfSorted (dedupSort l) = sweep n n rest := by
    rw [hds]
    rfl
  have hgls : get_node_list_string l =
      some (joinCommaSpace ((glsLoop n n rest).1 ++ [renderInterval (glsLoop n n rest).2])) := by
    unfold get_node_list_string
    rw [hds]
  obtain ⟨hgood, hchain⟩ := sweep_good rest n n le_rfl hch
  refine ⟨_, hgls, ?_, ?_, ?_, ?_⟩
  · rw [hiv, ← hmap]
  · rw [hiv]
    exact hgood
  · rw [hiv]
    exact hchain
  · intro x
    rw [hiv, sweep_cover rest n n le_rfl hch x]
    have hx : x ∈ n :: rest ↔ x ∈ l := by
      rw [← hds]
      exact mem_dedupSort l x
    rw [List.mem_cons] at hx
    constructor
    · rintro (⟨h1, h2⟩ | h3)
      · exact hx.mp (Or.inl (by omega))
      · exact hx.mp (Or.inr h3)
    · intro h
      rcases hx.mpr h with rfl | h3
      · exact Or.inl ⟨le_rfl, le_rfl⟩
      · exact Or.inr h3

/-- C2, witness: the compression of `{1,2,3,5,7,8,9}` renders as
`"n0001-n0003, n0005, n0007-n0009"`, its interval list is
`[(1,3),(5,5),(7,9)]`, and those intervals cover exactly the input set. -/
theorem C2_range_compression_witness :
    get_node_list_string [1, 2, 3, 5, 7, 8, 9] =
      some (str "n0001-n0003, n0005, n0007-n0009") ∧
    intervalsOfSorted (dedupSort [1, 2, 3, 5, 7, 8, 9]) = [(1, 3), (5, 5), (7, 9)] ∧
    (∀ x : Int,
      (∃ iv ∈ intervalsOfSorted (dedupSort ([1, 2, 3, 5, 7, 8, 9] : List Int)),
        iv.1 ≤ x ∧ x ≤ iv.2) ↔ x ∈ ([1, 2, 3, 5, 7, 8, 9] : List Int)) := by
  obtain ⟨s, h1, h2, h3, h4, h5⟩ := C2_range_compression [1, 2, 3, 5, 7, 8, 9] (by decide)
  exact ⟨by decide, by decide, h5⟩

/-- C7, counterexample: on the empty node list `get_node_list_string` does
not return the empty string — it raises (modelled `none`). -/
theorem C7_counterexample : get_node_list_string ([] : List Int) ≠ some [] := by
  decide

/-- C7, amended: on the empty list of node numbers `get_node_list_string`
raises an IndexError (modelled `none`) rather than returning the empty
string; and indeed `get_nodes_by_cluster` never produces a cluster entry
with zero node numbers, so the pipeline never renders an empty cluster. -/
theorem C7_empty_behaviour :
    get_node_list_string ([] : List Int) = none ∧
    ∀ (rows : List Row) (m : List (Str × List Int)),
      get_nodes_by_cluster rows = some m → ∀ kv ∈ m, kv.2 ≠ [] := by
  refine ⟨rfl, ?_⟩
  intro rows m hm
  exact nodesByClusterGo_nonempty rows [] m (by simp) hm

/-- C4: the known parsing defect. A 6-field line makes `parse_change_file`
raise an IndexError at `field_values[6]` (modelled `none`) — an index-range
failure rather than the descriptive Schema Violation error the
specification requires — and an 8-field line is silently truncated to its
first 7 fields rather than rejected. -/
theorem C4_parse_behaviour :
    parse_change_line ',' (str "PROBLEM,SLURM,n0010.clustera,,DOWN,t1") = none ∧
    parse_change_file ',' [str "PROBLEM,SLURM,n0010.clustera,,DOWN,t1"] = none ∧
    parse_change_line ',' (str "a,b,c,d,e,f,g,h") =
      some ⟨str "a", str "b", str "c", str "d", str "e", str "f", str "g"⟩ := by
  decide

/-- C6, counterexample: with the scenario rows exactly as given (cluster
suffix `clusterA`, uppercase `A`), both hosts fail `COMPUTE_PATTERN`
(whose character class is lowercase-only): the host-type split sends both
rows to OTHER, so the pipeline's Hardware category receives nothing, and
even fed directly to the cluster grouping the rows produce no cluster
entry at all — there is no `clusterA` list `"n0010-n0011"`. -/
theorem C6_counterexample :
    (get_rows_by_host_type [c6row1, c6row2]).compute = [] ∧
    get_nodes_by_cluster [c6row1, c6row2] = some [] ∧
    lookupS (str "clusterA") ((get_nodes_by_cluster [c6row1, c6row2]).getD []) = none := by
  decide

/-- C6, amended: the scenario rows as given are classified non-compute
(uppercase `A` in the cluster suffix), so the Hardware category gets no
cluster list; with the cluster suffix lowercased the scenario behaves as
described — the rows flow through every pipeline stage, the Hardware
category contains exactly one reason group displayed `"Fan failure"`
(case-insensitive merge, first-encountered casing), and its `clustera`
node list is compressed to `"n0010-n0011"`. -/
theorem C6_fan_failure_scenario :
    (get_rows_by_host_type [c6row1lc, c6row2lc]).compute = [c6row1lc, c6row2lc] ∧
    (get_rows_by_notification_type [c6row1lc, c6row2lc]).problem = [c6row1lc, c6row2lc] ∧
    (get_rows_by_service [c6row1lc, c6row2lc]).slurm = [c6row1lc, c6row2lc] ∧
    lookupS (str "HW") (get_rows_by_slurm_category [c6row1lc, c6row2lc]) =
      some [c6row1lc, c6row2lc] ∧
    get_rows_by_slurm_reason [c6row1lc, c6row2lc] =
      [(str "Fan failure", [c6row1lc, c6row2lc])] ∧
    get_nodes_by_cluster [c6row1lc, c6row2lc] = some [(str "clustera", [10, 11])] ∧
    get_node_list_string [10, 11] = some (str "n0010-n0011") ∧
    (get_rows_by_host_type [c6row1, c6row2]).compute = [] := by
  decide

/-- C8, counterexample: on the empty row set the categorized digest is not
the zero-category digest — all four sub-category headers are emitted even
though every bucket is empty. -/
theorem C8_counterexample :
    digest_slurm_problems_text (get_rows_by_slurm_category []) ≠
      some (str "\nSLURM Problems\n") ∧
    (digestContent (get_rows_by_slurm_category [])).map (List.map Prod.fst) =
      some [str "Hardware Issues", str "NHC Issues", str "Software Issues",
        str "Other Issues"] := by
  decide

set_option maxRecDepth 4000 in
/-- C8, amended: on the empty input row set both renderers succeed without
error and the raw-dump count lines are 0, but the categorized digest
contains all four sub-category headers: `get_rows_by_slurm_category`
always returns all four buckets and the renderers emit a header for every
bucket, empty or not. -/
theorem C8_empty_input :
    digest_slurm_problems_text (get_rows_by_slurm_category []) =
      some (str "\nSLURM Problems\n\n\tHardware Issues\n\n\tNHC Issues\n\n\tSoftware Issues\n\tOther Issues\n") ∧
    digest_slurm_problems_html (get_rows_by_slurm_category []) =
      some (str "<h2>SLURM Problems</h2><table border=\"1\"><tr><th colspan=\"2\">Hardware Issues</th></tr><tr><th colspan=\"2\">NHC Issues</th></tr><tr><th colspan=\"2\">Software Issues</th></tr><tr><th colspan=\"2\">Other Issues</th></tr></table>") ∧
    get_digest_text [] [] [] =
      some (str "SLURM Digest\n\nSLURM Problems\n\n\tHardware Issues\n\n\tNHC Issues\n\n\tSoftware Issues\n\tOther Issues\n\nRaw Output\n\nThere are 0 new problems:\nNOTIFICATION TYPE, SERVICE, HOST, ADDRESS, STATE, DATE/TIME, ADDITIONAL INFO\n\nThere are 0 new recoveries:\nNOTIFICATION TYPE, SERVICE, HOST, ADDRESS, STATE, DATE/TIME, ADDITIONAL INFO\n\nThere are 0 other new changes:\nNOTIFICATION TYPE, SERVICE, HOST, ADDRESS, STATE, DATE/TIME, ADDITIONAL INFO\n") := by
  decide

/-- C10: a host can match `COMPUTE_PATTERN` (which `re.search` does not
anchor on the left) and still make the decomposition in
`get_nodes_by_cluster` raise: `"a.n0123.bc"` matches, but
`host.split(".")` yields three parts and the two-name unpacking raises a
ValueError (modelled `none`). On well-formed hosts the decomposition
works as the specification says: `"n0007.clustera"` gives node number `7`
(leading zeros stripped by `int`) and cluster `"clustera"` verbatim. -/
theorem C10_decomposition_failure :
    computeSearch (str "a.n0123.bc") = true ∧
    get_nodes_by_cluster [rowExtraDot] = none ∧
    get_nodes_by_cluster [rowN0007] = some [(str "clustera", [7])] := by
  decide

/-! ## Lemmas about the partitioning splits -/

theorem get_rows_by_host_type_eq (rows : List Row) :
    (get_rows_by_host_type rows).compute = rows.filter (fun r => computeSearch r.host) ∧
    (get_rows_by_host_type rows).other = rows.filter (fun r => !computeSearch r.host) := by
  induction rows with
  | nil => exact ⟨rfl, rfl⟩
  | cons row rest ih =>
    obtain ⟨ih1, ih2⟩ := ih
    by_cases h : computeSearch row.host = true
    · simp [get_rows_by_host_type, List.filter_cons, h, ih1, ih2]
    · simp only [Bool.not_eq_true] at h
      simp [get_rows_by_host_type, List.filter_cons, h, ih1, ih2]

theorem get_rows_by_notification_type_eq (rows : List Row) :
    (get_rows_by_notification_type rows).problem =
      rows.filter (fun r => decide (r.notification_type = str "PROBLEM")) ∧
    (get_rows_by_notification_type rows).recovery =
      rows.filter (fun r => !decide (r.notification_type = str "PROBLEM") &&
        decide (r.notification_type = str "RECOVERY")) ∧
    (get_rows_by_notification_type rows).other =
      rows.filter (fun r => !decide (r.notification_type = str "PROBLEM") &&
        !decide (r.notification_type = str "RECOVERY")) := by
  induction rows with
  | nil => exact ⟨rfl, rfl, rfl⟩
  | cons row rest ih =>
    obtain ⟨ih1, ih2, ih3⟩ := ih
    by_cases h1 : row.notification_type = str "PROBLEM"
    · simp [get_rows_by_notification_type, List.filter_cons, if_pos h1, decide_eq_true h1,
        ih1, ih2, ih3]
    · by_cases h2 : row.notification_type = str "RECOVERY"
      · simp [get_rows_by_notification_type, List.filter_cons, if_neg h1, if_pos h2,
          decide_eq_false h1, decide_eq_true h2, ih1, ih2, ih3]
      · simp [get_rows_by_notification_type, List.filter_cons, if_neg h1, if_neg h2,
          decide_eq_false h1, decide_eq_false h2, ih1, ih2, ih3]

theorem get_rows_by_service_eq (rows : List Row) :
    (get_rows_by_service rows).slurm =
      rows.filter (fun r => decide (r.service = str "SLURM")) ∧
    (get_rows_by_service rows).other =
      rows.filter (fun r => !decide (r.service = str "SLURM")) := by
  induction rows with
  | nil => exact ⟨rfl, rfl⟩
  | cons row rest ih =>
    obtain ⟨ih1, ih2⟩ := ih
    by_cases h : row.service = str "SLURM"
    · simp [get_rows_by_service, List.filter_cons, h, ih1, ih2]
    · simp [get_rows_by_service, List.filter_cons, h, ih1, ih2]

theorem slurmCategorySplit_eq (rows : List Row) :
    (slurmCategorySplit rows).1 = rows.filter (fun r =>
      decide (r.service = str "SLURM") &&
        startsWithStr r.additional_info (str "Hardware" ++ [':'])) ∧
    (slurmCategorySplit rows).2.1 = rows.filter (fun r =>
      decide (r.service = str "SLURM") &&
        !startsWithStr r.additional_info (str "Hardware" ++ [':']) &&
        startsWithStr r.additional_info (str "NHC" ++ [':'])) ∧
    (slurmCategorySplit rows).2.2.1 = rows.filter (fun r =>
      decide (r.service = str "SLURM") &&
        !startsWithStr r.additional_info (str "Hardware" ++ [':']) &&
        !startsWithStr r.additional_info (str "NHC" ++ [':']) &&
        startsWithStr r.additional_info (str "Software" ++ [':'])) ∧
    (slurmCategorySplit rows).2.2.2 = rows.filter (fun r =>
      decide (r.service = str "SLURM") &&
        !startsWithStr r.additional_info (str "Hardware" ++ [':']) &&
        !startsWithStr r.additional_info (str "NHC" ++ [':']) &&
        !startsWithStr r.additional_info (str "Software" ++ [':'])) := by
  induction rows with
  | nil => exact ⟨rfl, rfl, rfl, rfl⟩
  | cons row rest ih =>
    obtain ⟨ih1, ih2, ih3, ih4⟩ := ih
    by_cases hs : row.service = str "SLURM"
    · by_cases hh : startsWithStr row.additional_info (str "Hardware" ++ [':']) = true
      · simp [slurmCategorySplit, List.filter_cons, hs, hh, ih1, ih2, ih3, ih4]
      · simp only [Bool.not_eq_true] at hh
        by_cases hn : startsWithStr row.additional_info (str "NHC" ++ [':']) = true
        · simp [slurmCategorySplit, List.filter_cons, hs, hh, hn, ih1, ih2, ih3, ih4]
        · simp only [Bool.not_eq_true] at hn
          by_cases hw : startsWithStr row.additional_info (str "Software" ++ [':']) = true
          · simp [slurmCategorySplit, List.filter_cons, hs, hh, hn, hw, ih1, ih2, ih3, ih4]
          · simp only [Bool.not_eq_true] at hw
            simp [slurmCategorySplit, List.filter_cons, hs, hh, hn, hw, ih1, ih2, ih3, ih4]
    · simp [slurmCategorySplit, List.filter_cons, hs, ih1, ih2, ih3, ih4]

theorem get_rows_by_notification_type_perm : ∀ rows : List Row,
    ((get_rows_by_notification_type rows).problem ++
      (get_rows_by_notification_type rows).recovery ++
      (get_rows_by_notification_type rows).other).Perm rows
  | [] => List.Perm.refl _
  | row :: rest => by
    have ih := get_rows_by_notification_type_perm rest
    by_cases h1 : row.notification_type = str "PROBLEM"
    · simp only [get_rows_by_notification_type, if_pos h1]
      exact ih.cons row
    · by_cases h2 : row.notification_type = str "RECOVERY"
      · simp only [get_rows_by_notification_type, if_neg h1, if_pos h2]
        exact ((List.perm_middle).append_right _).trans (ih.cons row)
      · simp only [get_rows_by_notification_type, if_neg h1, if_neg h2]
        exact (List.perm_middle).trans (ih.cons row)

theorem slurmCategorySplit_perm : ∀ rows : List Row,
    (∀ r ∈ rows, r.service = str "SLURM") →
      ((slurmCategorySplit rows).1 ++ (slurmCategorySplit rows).2.1 ++
        (slurmCategorySplit rows).2.2.1 ++ (slurmCategorySplit rows).2.2.2).Perm rows
  | [], _ => List.Perm.refl _
  | row :: rest, hall => by
    have ih := slurmCategorySplit_perm rest
      (fun r hr => hall r (List.mem_cons_of_mem _ hr))
    have hs : row.service = str "SLURM" := hall row (List.mem_cons_self _ _)
    by_cases hh : startsWithStr row.additional_info (str "Hardware" ++ [':']) = true
    · simp only [slurmCategorySplit, if_pos hs, if_pos hh]
      exact ih.cons row
    · by_cases hn : startsWithStr row.additional_info (str "NHC" ++ [':']) = true
      · simp only [slurmCategorySplit, if_pos hs, if_neg hh, if_pos hn]
        exact (((List.perm_middle).append_right _).append_right _).trans (ih.cons row)
      · by_cases hw : startsWithStr row.additional_info (str "Software" ++ [':']) = true
        · simp only [slurmCategorySplit, if_pos hs, if_neg hh, if_neg hn, if_pos hw]
          exact ((List.perm_middle).append_right _).trans (ih.cons row)
        · simp only [slurmCategorySplit, if_pos hs, if_neg hh, if_neg hn, if_neg hw]
          exact (List.perm_middle).trans (ih.cons row)

/-- C3, counterexample: the SLURM sub-category split is not total on
arbitrary inputs — a row whose SERVICE field is not "SLURM" is appended to
none of the four buckets (the source loop has no else branch for the
service guard), so it is silently dropped. -/
theorem C3_counterexample :
    slurmCategorySplit [rowServiceX] = ([], [], [], []) ∧
    rowServiceX ∈ [rowServiceX] := by
  decide

/-- C3, amended: the host-type, notification-type and service splits are
total and disjoint for every input row set — the buckets' concatenation is
a permutation of the input (no row dropped or duplicated) and no row lies
in two buckets. The SLURM sub-category split is total and disjoint only on
row sets whose rows all have service "SLURM" (as in the pipeline, which
feeds it the SLURM service bucket); rows with any other service are
dropped by it. -/
theorem C3_partition_totality :
    ∀ rows : List Row,
      (((get_rows_by_host_type rows).compute ++ (get_rows_by_host_type rows).other).Perm rows ∧
        ∀ r : Row, ¬(r ∈ (get_rows_by_host_type rows).compute ∧
          r ∈ (get_rows_by_host_type rows).other)) ∧
      (((get_rows_by_notification_type rows).problem ++
          (get_rows_by_notification_type rows).recovery ++
          (get_rows_by_notification_type rows).other).Perm rows ∧
        (∀ r : Row, ¬(r ∈ (get_rows_by_notification_type rows).problem ∧
          r ∈ (get_rows_by_notification_type rows).recovery)) ∧
        (∀ r : Row, ¬(r ∈ (get_rows_by_notification_type rows).problem ∧
          r ∈ (get_rows_by_notification_type rows).other)) ∧
        (∀ r : Row, ¬(r ∈ (get_rows_by_notification_type rows).recovery ∧
          r ∈ (get_rows_by_notification_type rows).other))) ∧
      (((get_rows_by_service rows).slurm ++ (get_rows_by_service rows).other).Perm rows ∧
        ∀ r : Row, ¬(r ∈ (get_rows_by_service rows).slurm ∧
          r ∈ (get_rows_by_service rows).other)) ∧
      ((∀ r ∈ rows, r.service = str "SLURM") →
        ((slurmCategorySplit rows).1 ++ (slurmCategorySplit rows).2.1 ++
          (slurmCategorySplit rows).2.2.1 ++ (slurmCategorySplit rows).2.2.2).Perm rows) ∧
      (∀ r : Row, ¬(r ∈ (slurmCategorySplit rows).1 ∧ r ∈ (slurmCategorySplit rows).2.1)) ∧
      (∀ r : Row, ¬(r ∈ (slurmCategorySplit rows).1 ∧ r ∈ (slurmCategorySplit rows).2.2.1)) ∧
      (∀ r : Row, ¬(r ∈ (slurmCategorySplit rows).1 ∧ r ∈ (slurmCategorySplit rows).2.2.2)) ∧
      (∀ r : Row, ¬(r ∈ (slurmCategorySplit rows).2.1 ∧ r ∈ (slurmCategorySplit rows).2.2.1)) ∧
      (∀ r : Row, ¬(r ∈ (slurmCategorySplit rows).2.1 ∧ r ∈ (slurmCategorySplit rows).2.2.2)) ∧
      (∀ r : Row, ¬(r ∈ (slurmCategorySplit rows).2.2.1 ∧
        r ∈ (slurmCategorySplit rows).2.2.2)) := by
  intro rows
  obtain ⟨hht1, hht2⟩ := get_rows_by_host_type_eq rows
  obtain ⟨hnt1, hnt2, hnt3⟩ := get_rows_by_notification_type_eq rows
  obtain ⟨hsv1, hsv2⟩ := get_rows_by_service_eq rows
  obtain ⟨hsc1, hsc2, hsc3, hsc4⟩ := slurmCategorySplit_eq rows
  refine ⟨⟨?_, ?_⟩, ⟨get_rows_by_notification_type_perm rows, ?_, ?_, ?_⟩, ⟨?_, ?_⟩,
    slurmCategorySplit_perm rows, ?_, ?_, ?_, ?_, ?_, ?_⟩
  · rw [hht1, hht2]
    exact List.filter_append_perm _ rows
  · intro r ⟨hc, ho⟩
    rw [hht1] at hc
    rw [hht2] at ho
    have h1 := (List.mem_filter.mp hc).2
    have h2 := (List.mem_filter.mp ho).2
    simp at h1 h2
    exact absurd h1 (by simp [h2])
  · intro r ⟨ha, hb⟩
    rw [hnt1] at ha
    rw [hnt2] at hb
    have h1 := (List.mem_filter.mp ha).2
    have h2 := (List.mem_filter.mp hb).2
    simp at h1 h2
    exact absurd h1 h2.1
  · intro r ⟨ha, hb⟩
    rw [hnt1] at ha
    rw [hnt3] at hb
    have h1 := (List.mem_filter.mp ha).2
    have h2 := (List.mem_filter.mp hb).2
    simp at h1 h2
    exact absurd h1 h2.1
  · intro r ⟨ha, hb⟩
    rw [hnt2] at ha
    rw [hnt3] at hb
    have h1 := (List.mem_filter.mp ha).2
    have h2 := (List.mem_filter.mp hb).2
    simp at h1 h2
    exact absurd h1.2 h2.2
  · rw [hsv1, hsv2]
    exact List.filter_append_perm _ rows
  · intro r ⟨ha, hb⟩
    rw [hsv1] at ha
    rw [hsv2] at hb
    have h1 := (List.mem_filter.mp ha).2
    have h2 := (List.mem_filter.mp hb).2
    simp at h1 h2
    exact absurd h1 h2
  · intro r ⟨ha, hb⟩
    rw [hsc1] at ha
    rw [hsc2] at hb
    have h1 := (List.mem_filter.mp ha).2
    have h2 := (List.mem_filter.mp hb).2
    simp at h1 h2
    simp_all
  · intro r ⟨ha, hb⟩
    rw [hsc1] at ha
    rw [hsc3] at hb
    have h1 := (List.mem_filter.mp ha).2
    have h2 := (List.mem_filter.mp hb).2
    simp at h1 h2
    simp_all
  · intro r ⟨ha, hb⟩
    rw [hsc1] at ha
    rw [hsc4] at hb
    have h1 := (List.mem_filter.mp ha).2
    have h2 := (List.mem_filter.mp hb).2
    simp at h1 h2
    simp_all
  · intro r ⟨ha, hb⟩
    rw [hsc2] at ha
    rw [hsc3] at hb
    have h1 := (List.mem_filter.mp ha).2
    have h2 := (List.mem_filter.mp hb).2
    simp at h1 h2
    simp_all
  · intro r ⟨ha, hb⟩
    rw [hsc2] at ha
    rw [hsc4] at hb
    have h1 := (List.mem_filter.mp ha).2
    have h2 := (List.mem_filter.mp hb).2
    simp at h1 h2
    simp_all
  · intro r ⟨ha, hb⟩
    rw [hsc3] at ha
    rw [hsc4] at hb
    have h1 := (List.mem_filter.mp ha).2
    have h2 := (List.mem_filter.mp hb).2
    simp at h1 h2
    simp_all

/-! ## Lemmas about reason grouping -/

theorem mem_appendPairAt : ∀ (m : List (Str × List (Str × Row))) (k : Str) (p : Str × Row)
    (e : Str × List (Str × Row)), e ∈ appendPairAt m k p →
      e ∈ m ∨ e = (k, [p]) ∨ ∃ v, (k, v) ∈ m ∧ e = (k, v ++ [p])
  | [], k, p, e, he => by
    simp only [appendPairAt, List.mem_singleton] at he
    exact Or.inr (Or.inl he)
  | (k0, v) :: rest, k, p, e, he => by
    by_cases h : k0 = k
    · subst h
      rw [show appendPairAt ((k0, v) :: rest) k0 p = (k0, v ++ [p]) :: rest from
        by simp [appendPairAt]] at he
      rw [List.mem_cons] at he
      rcases he with heq | he
      · exact Or.inr (Or.inr ⟨v, List.mem_cons_self _ _, heq⟩)
      · exact Or.inl (List.mem_cons_of_mem _ he)
    · rw [show appendPairAt ((k0, v) :: rest) k p = (k0, v) :: appendPairAt rest k p from
        by simp [appendPairAt, h]] at he
      rw [List.mem_cons] at he
      rcases he with heq | he
      · exact Or.inl (by rw [heq]; exact List.mem_cons_self _ _)
      · rcases mem_appendPairAt rest k p e he with h1 | h2 | ⟨v', hv', heq⟩
        · exact Or.inl (List.mem_cons_of_mem _ h1)
        · exact Or.inr (Or.inl h2)
        · exact Or.inr (Or.inr ⟨v', List.mem_cons_of_mem _ hv', heq⟩)

theorem mem_appendRowsAt : ∀ (out : List (Str × List Row)) (k : Str) (rs : List Row)
    (e : Str × List Row), e ∈ appendRowsAt out k rs →
      e ∈ out ∨ e = (k, rs) ∨ ∃ v, (k, v) ∈ out ∧ e = (k, v ++ rs)
  | [], k, rs, e, he => by
    simp only [appendRowsAt, List.mem_singleton] at he
    exact Or.inr (Or.inl he)
  | (k0, v) :: rest, k, rs, e, he => by
    by_cases h : k0 = k
    · subst h
      rw [show appendRowsAt ((k0, v) :: rest) k0 rs = (k0, v ++ rs) :: rest from
        by simp [appendRowsAt]] at he
      rw [List.mem_cons] at he
      rcases he with heq | he
      · exact Or.inr (Or.inr ⟨v, List.mem_cons_self _ _, heq⟩)
      · exact Or.inl (List.mem_cons_of_mem _ he)
    · rw [show appendRowsAt ((k0, v) :: rest) k rs = (k0, v) :: appendRowsAt rest k rs from
        by simp [appendRowsAt, h]] at he
      rw [List.mem_cons] at he
      rcases he with heq | he
      · exact Or.inl (by rw [heq]; exact List.mem_cons_self _ _)
      · rcases mem_appendRowsAt rest k rs e he with h1 | h2 | ⟨v', hv', heq⟩
        · exact Or.inl (List.mem_cons_of_mem _ h1)
        · exact Or.inr (Or.inl h2)
        · exact Or.inr (Or.inr ⟨v', List.mem_cons_of_mem _ hv', heq⟩)

theorem appendPairAt_flatten (m : List (Str × List (Str × Row))) (k : Str) (p : Str × Row) :
    ((appendPairAt m k p).map Prod.snd).flatten.Perm ((m.map Prod.snd).flatten ++ [p]) := by
  induction m with
  | nil =>
    simp [appendPairAt]
  | cons e rest ih =>
    obtain ⟨k0, v⟩ := e
    by_cases h : k0 = k
    · simp only [appendPairAt, if_pos h, List.map_cons, List.flatten_cons]
      rw [List.append_assoc, List.append_assoc]
      exact List.Perm.append_left v List.perm_append_comm
    · simp only [appendPairAt, if_neg h, List.map_cons, List.flatten_cons]
      rw [List.append_assoc]
      exact List.Perm.append_left v ih

theorem appendRowsAt_flatten (out : List (Str × List Row)) (k : Str) (rs : List Row) :
    ((appendRowsAt out k rs).map Prod.snd).flatten.Perm ((out.map Prod.snd).flatten ++ rs) := by
  induction out with
  | nil =>
    simp [appendRowsAt]
  | cons e rest ih =>
    obtain ⟨k0, v⟩ := e
    by_cases h : k0 = k
    · simp only [appendRowsAt, if_pos h, List.map_cons, List.flatten_cons]
      rw [List.append_assoc, List.append_assoc]
      exact List.Perm.append_left v List.perm_append_comm
    · simp only [appendRowsAt, if_neg h, List.map_cons, List.flatten_cons]
      rw [List.append_assoc]
      exact List.Perm.append_left v ih

theorem reasonPass1_flatten : ∀ (rows : List Row) (m : List (Str × List (Str × Row))),
    ((reasonPass1 rows m).map Prod.snd).flatten.Perm
      ((m.map Prod.snd).flatten ++
        (rows.filter (fun r => decide (r.service = str "SLURM"))).map
          (fun r => (canonicalReason r.additional_info, r)))
  | [], m => by simp [reasonPass1]
  | row :: rest, m => by
    by_cases h : row.service = str "SLURM"
    · rw [show reasonPass1 (row :: rest) m =
        reasonPass1 rest (appendPairAt m (lowerStr (canonicalReason row.additional_info))
          (canonicalReason row.additional_info, row)) from by simp [reasonPass1, h]]
      rw [List.filter_cons, if_pos (by simp [h])]
      simp only [List.map_cons]
      refine (reasonPass1_flatten rest _).trans ?_
      refine ((appendPairAt_flatten m _ _).append_right _).trans ?_
      rw [List.append_assoc]
      exact List.Perm.refl _
    · rw [show reasonPass1 (row :: rest) m = reasonPass1 rest m from by simp [reasonPass1, h]]
      rw [List.filter_cons, if_neg (by simp [h])]
      exact reasonPass1_flatten rest m

theorem reasonPass2_flatten : ∀ (m : List (Str × List (Str × Row))) (out : List (Str × List Row)),
    ((reasonPass2 m out).map Prod.snd).flatten.Perm
      ((out.map Prod.snd).flatten ++ (m.map (fun e => e.2.map Prod.snd)).flatten)
  | [], out => by simp [reasonPass2]
  | (k, pairs) :: rest, out => by
    cases pairs with
    | nil =>
      rw [show reasonPass2 ((k, []) :: rest) out = reasonPass2 rest out from rfl]
      simpa using reasonPass2_flatten rest out
    | cons pr t =>
      rw [show reasonPass2 ((k, pr :: t) :: rest) out =
        reasonPass2 rest (appendRowsAt out pr.1 ((pr :: t).map Prod.snd)) from rfl]
      refine (reasonPass2_flatten rest _).trans ?_
      refine ((appendRowsAt_flatten out _ _).append_right _).trans ?_
      simp only [List.map_cons, List.flatten_cons]
      rw [List.append_assoc]

theorem reasonPass1_inv : ∀ (rows : List Row) (m : List (Str × List (Str × Row))),
    (∀ e ∈ m, (∃ pr t, e.2 = pr :: t) ∧
      ∀ pr ∈ e.2, pr.2.service = str "SLURM" ∧
        pr.1 = canonicalReason pr.2.additional_info ∧ lowerStr pr.1 = e.1) →
    ∀ e ∈ reasonPass1 rows m, (∃ pr t, e.2 = pr :: t) ∧
      ∀ pr ∈ e.2, pr.2.service = str "SLURM" ∧
        pr.1 = canonicalReason pr.2.additional_info ∧ lowerStr pr.1 = e.1
  | [], _, hm => hm
  | row :: rest, m, hm => by
    by_cases h : row.service = str "SLURM"
    · rw [show reasonPass1 (row :: rest) m =
        reasonPass1 rest (appendPairAt m (lowerStr (canonicalReason row.additional_info))
          (canonicalReason row.additional_info, row)) from by simp [reasonPass1, h]]
      refine reasonPass1_inv rest _ ?_
      intro e he
      rcases mem_appendPairAt _ _ _ _ he with h1 | h2 | ⟨v, hv, heq⟩
      · exact hm e h1
      · subst h2
        refine ⟨⟨(canonicalReason row.additional_info, row), [], rfl⟩, ?_⟩
        intro pr hpr
        rw [List.mem_singleton] at hpr
        subst hpr
        exact ⟨h, rfl, rfl⟩
      · subst heq
        obtain ⟨⟨pr0, t0, hv0⟩, hall⟩ := hm _ hv
        have hv0' : v = pr0 :: t0 := hv0
        subst hv0'
        refine ⟨⟨pr0, t0 ++ [(canonicalReason row.additional_info, row)], rfl⟩, ?_⟩
        intro pr hpr
        rcases List.mem_append.mp hpr with hpr | hpr
        · exact hall pr hpr
        · rw [List.mem_singleton] at hpr
          subst hpr
          exact ⟨h, rfl, rfl⟩
    · rw [show reasonPass1 (row :: rest) m = reasonPass1 rest m from by simp [reasonPass1, h]]
      exact reasonPass1_inv rest m hm

theorem reasonPass2_inv : ∀ (m : List (Str × List (Str × Row))) (out : List (Str × List Row)),
    (∀ e ∈ m, ∀ pr ∈ e.2, pr.2.service = str "SLURM" ∧
      pr.1 = canonicalReason pr.2.additional_info ∧ lowerStr pr.1 = e.1) →
    (∀ g ∈ out, (∃ r t, g.2 = r :: t ∧ g.1 = canonicalReason r.additional_info) ∧
      ∀ r ∈ g.2, r.service = str "SLURM" ∧
        lowerStr (canonicalReason r.additional_info) = lowerStr g.1) →
    ∀ g ∈ reasonPass2 m out,
      (∃ r t, g.2 = r :: t ∧ g.1 = canonicalReason r.additional_info) ∧
      ∀ r ∈ g.2, r.service = str "SLURM" ∧
        lowerStr (canonicalReason r.additional_info) = lowerStr g.1
  | [], out, _, hout => by simpa [reasonPass2] using hout
  | (k, pairs) :: rest, out, hm, hout => by
    have hm' : ∀ e ∈ rest, ∀ pr ∈ e.2, pr.2.service = str "SLURM" ∧
        pr.1 = canonicalReason pr.2.additional_info ∧ lowerStr pr.1 = e.1 :=
      fun e he => hm e (List.mem_cons_of_mem _ he)
    cases pairs with
    | nil =>
      rw [show reasonPass2 ((k, []) :: rest) out = reasonPass2 rest out from rfl]
      exact reasonPass2_inv rest out hm' hout
    | cons pr t =>
      rw [show reasonPass2 ((k, pr :: t) :: rest) out =
        reasonPass2 rest (appendRowsAt out pr.1 ((pr :: t).map Prod.snd)) from rfl]
      refine reasonPass2_inv rest _ hm' ?_
      have hpairs := hm (k, pr :: t) (List.mem_cons_self _ _)
      have hhead := hpairs pr (List.mem_cons_self _ _)
      intro g hg
      rcases mem_appendRowsAt _ _ _ _ hg with h1 | h2 | ⟨v, hv, heq⟩
      · exact hout g h1
      · subst h2
        refine ⟨⟨pr.2, t.map Prod.snd, rfl, hhead.2.1⟩, ?_⟩
        intro r hr
        obtain ⟨pr', hpr', rfl⟩ := List.mem_map.mp hr
        have h1 := hpairs pr' hpr'
        refine ⟨h1.1, ?_⟩
        rw [← h1.2.1, h1.2.2, hhead.2.2]
      · subst heq
        obtain ⟨⟨r0, t0, hv0, hd⟩, hall⟩ := hout _ hv
        have hv0' : v = r0 :: t0 := hv0
        subst hv0'
        refine ⟨⟨r0, t0 ++ (pr :: t).map Prod.snd, rfl, hd⟩, ?_⟩
        intro r hr
        rcases List.mem_append.mp hr with hr | hr
        · exact hall r hr
        · obtain ⟨pr', hpr', rfl⟩ := List.mem_map.mp hr
          have h1 := hpairs pr' hpr'
          refine ⟨h1.1, ?_⟩
          rw [← h1.2.1, h1.2.2, hhead.2.2]

theorem get_rows_by_slurm_reason_flatten (rows : List Row) :
    (((get_rows_by_slurm_reason rows).map Prod.snd).flatten).Perm
      (rows.filter (fun r => decide (r.service = str "SLURM"))) := by
  have h2 := reasonPass2_flatten (reasonPass1 rows []) []
  have h1 := reasonPass1_flatten rows []
  simp only [List.map_nil, List.flatten_nil, List.nil_append] at h1 h2
  have h3 : ((reasonPass1 rows []).map (fun e => e.2.map Prod.snd)).flatten =
      (((reasonPass1 rows []).map Prod.snd).flatten).map Prod.snd := by
    rw [List.map_flatten, List.map_map]
    rfl
  refine h2.trans ?_
  rw [h3]
  refine (h1.map Prod.snd).trans ?_
  rw [List.map_map]
  have h4 : (Prod.snd ∘ fun r : Row => (canonicalReason r.additional_info, r)) = id := rfl
  rw [h4, List.map_id]

theorem appendPairAt_keys : ∀ (m : List (Str × List (Str × Row))) (k : Str) (p : Str × Row),
    (appendPairAt m k p).map Prod.fst =
      if k ∈ m.map Prod.fst then m.map Prod.fst else m.map Prod.fst ++ [k]
  | [], k, p => by simp [appendPairAt]
  | (k0, v) :: rest, k, p => by
    by_cases h : k0 = k
    · subst h
      rw [show appendPairAt ((k0, v) :: rest) k0 p = (k0, v ++ [p]) :: rest from
        by simp [appendPairAt]]
      rw [if_pos (by rw [List.map_cons]; exact List.mem_cons_self _ _)]
      rfl
    · simp only [appendPairAt, if_neg h, List.map_cons]
      rw [appendPairAt_keys rest k p]
      by_cases hk : k ∈ rest.map Prod.fst
      · rw [if_pos hk, if_pos (List.mem_cons_of_mem _ hk)]
      · have hnotin : k ∉ k0 :: rest.map Prod.fst := by
          simp only [List.mem_cons]
          rintro (rfl | hc)
          · exact h rfl
          · exact hk hc
        rw [if_neg hk, if_neg hnotin]
        rfl

theorem reasonPass1_keys_nodup : ∀ (rows : List Row) (m : List (Str × List (Str × Row))),
    (m.map Prod.fst).Nodup → ((reasonPass1 rows m).map Prod.fst).Nodup
  | [], _, h => h
  | row :: rest, m, h => by
    by_cases hs : row.service = str "SLURM"
    · rw [show reasonPass1 (row :: rest) m =
        reasonPass1 rest (appendPairAt m (lowerStr (canonicalReason row.additional_info))
          (canonicalReason row.additional_info, row)) from by simp [reasonPass1, hs]]
      refine reasonPass1_keys_nodup rest _ ?_
      rw [appendPairAt_keys]
      by_cases hk : lowerStr (canonicalReason row.additional_info) ∈ m.map Prod.fst
      · rw [if_pos hk]
        exact h
      · rw [if_neg hk, List.nodup_append]
        refine ⟨h, List.nodup_singleton _, ?_⟩
        intro a ha hb
        rw [List.mem_singleton] at hb
        subst hb
        exact hk ha
    · rw [show reasonPass1 (row :: rest) m = reasonPass1 rest m from by simp [reasonPass1, hs]]
      exact reasonPass1_keys_nodup rest m h

theorem lookupS_eq_some_mem {β : Type} : ∀ (m : List (Str × β)) (k : Str) (v : β),
    lookupS k m = some v → (k, v) ∈ m
  | [], _, _, h => by cases h
  | (k0, v0) :: rest, k, v, h => by
    by_cases hk : k0 = k
    · subst hk
      rw [show lookupS k0 ((k0, v0) :: rest) = some v0 from by simp [lookupS]] at h
      injection h with h
      subst h
      exact List.mem_cons_self _ _
    · rw [show lookupS k ((k0, v0) :: rest) = lookupS k rest from by simp [lookupS, hk]] at h
      exact List.mem_cons_of_mem _ (lookupS_eq_some_mem rest k v h)

theorem lookupS_of_mem_nodup {β : Type} : ∀ (m : List (Str × β)) (e : Str × β),
    (m.map Prod.fst).Nodup → e ∈ m → lookupS e.1 m = some e.2
  | [], e, _, he => absurd he (List.not_mem_nil e)
  | (k0, v0) :: rest, e, hnd, he => by
    rw [List.map_cons, List.nodup_cons] at hnd
    rcases List.mem_cons.mp he with rfl | he
    · simp [lookupS]
    · have hne : k0 ≠ e.1 := by
        intro hEq
        exact hnd.1 (by rw [hEq]; exact List.mem_map.mpr ⟨e, he, rfl⟩)
      simp only [lookupS, if_neg hne]
      exact lookupS_of_mem_nodup rest e hnd.2 he

theorem lookupS_appendPairAt_self : ∀ (m : List (Str × List (Str × Row))) (k : Str)
    (p : Str × Row),
    lookupS k (appendPairAt m k p) = some ((lookupS k m).getD [] ++ [p])
  | [], k, p => by simp [appendPairAt, lookupS]
  | (k0, v) :: rest, k, p => by
    by_cases h : k0 = k
    · subst h
      simp [appendPairAt, lookupS]
    · rw [show appendPairAt ((k0, v) :: rest) k p = (k0, v) :: appendPairAt rest k p from
        by simp [appendPairAt, h]]
      rw [show lookupS k ((k0, v) :: appendPairAt rest k p) = lookupS k (appendPairAt rest k p)
        from by simp [lookupS, h]]
      rw [show lookupS k ((k0, v) :: rest) = lookupS k rest from by simp [lookupS, h]]
      exact lookupS_appendPairAt_self rest k p

theorem lookupS_appendPairAt_other : ∀ (m : List (Str × List (Str × Row))) (k k' : Str)
    (p : Str × Row), k' ≠ k →
    lookupS k' (appendPairAt m k p) = lookupS k' m
  | [], k, k', p, h => by simp [appendPairAt, lookupS, Ne.symm h]
  | (k0, v) :: rest, k, k', p, h => by
    by_cases h0 : k0 = k
    · subst h0
      have hne : k0 ≠ k' := Ne.symm h
      rw [show appendPairAt ((k0, v) :: rest) k0 p = (k0, v ++ [p]) :: rest from
        by simp [appendPairAt]]
      rw [show lookupS k' ((k0, v ++ [p]) :: rest) = lookupS k' rest from by simp [lookupS, hne]]
      rw [show lookupS k' ((k0, v) :: rest) = lookupS k' rest from by simp [lookupS, hne]]
    · rw [show appendPairAt ((k0, v) :: rest) k p = (k0, v) :: appendPairAt rest k p from
        by simp [appendPairAt, h0]]
      by_cases h1 : k0 = k'
      · subst h1
        rw [show lookupS k0 ((k0, v) :: appendPairAt rest k p) = some v from by simp [lookupS]]
        rw [show lookupS k0 ((k0, v) :: rest) = some v from by simp [lookupS]]
      · rw [show lookupS k' ((k0, v) :: appendPairAt rest k p) = lookupS k' (appendPairAt rest k p)
          from by simp [lookupS, h1]]
        rw [show lookupS k' ((k0, v) :: rest) = lookupS k' rest from by simp [lookupS, h1]]
        exact lookupS_appendPairAt_other rest k k' p h

theorem reasonPass1_lookupS_some : ∀ (rows : List Row) (m : List (Str × List (Str × Row)))
    (k : Str) (v : List (Str × Row)), lookupS k m = some v →
    lookupS k (reasonPass1 rows m) =
      some (v ++ (rows.filter (fun r => decide (r.service = str "SLURM") &&
        decide (lowerStr (canonicalReason r.additional_info) = k))).map
          (fun r => (canonicalReason r.additional_info, r)))
  | [], m, k, v, h => by simpa [reasonPass1] using h
  | row :: rest, m, k, v, h => by
    by_cases hs : row.service = str "SLURM"
    · rw [show reasonPass1 (row :: rest) m =
        reasonPass1 rest (appendPairAt m (lowerStr (canonicalReason row.additional_info))
          (canonicalReason row.additional_info, row)) from by simp [reasonPass1, hs]]
      by_cases hk : lowerStr (canonicalReason row.additional_info) = k
      · subst hk
        have hap := lookupS_appendPairAt_self m (lowerStr (canonicalReason row.additional_info))
          (canonicalReason row.additional_info, row)
        rw [h] at hap
        rw [reasonPass1_lookupS_some rest _ _ _ hap]
        rw [List.filter_cons, if_pos (by simp [hs])]
        simp [List.append_assoc]
      · have hap := lookupS_appendPairAt_other m
          (lowerStr (canonicalReason row.additional_info)) k
          (canonicalReason row.additional_info, row) (Ne.symm hk)
        rw [reasonPass1_lookupS_some rest _ k v (hap.trans h)]
        rw [List.filter_cons, if_neg (by simp [hk])]
    · rw [show reasonPass1 (row :: rest) m = reasonPass1 rest m from by simp [reasonPass1, hs]]
      rw [reasonPass1_lookupS_some rest m k v h]
      rw [List.filter_cons, if_neg (by simp [hs])]

theorem reasonPass1_lookupS_none : ∀ (rows : List Row) (m : List (Str × List (Str × Row)))
    (k : Str), lookupS k m = none →
    lookupS k (reasonPass1 rows m) =
      (if (rows.filter (fun r => decide (r.service = str "SLURM") &&
          decide (lowerStr (canonicalReason r.additional_info) = k))).isEmpty then none
       else some ((rows.filter (fun r => decide (r.service = str "SLURM") &&
          decide (lowerStr (canonicalReason r.additional_info) = k))).map
            (fun r => (canonicalReason r.additional_info, r))))
  | [], m, k, h => by simpa [reasonPass1] using h
  | row :: rest, m, k, h => by
    by_cases hs : row.service = str "SLURM"
    · rw [show reasonPass1 (row :: rest) m =
        reasonPass1 rest (appendPairAt m (lowerStr (canonicalReason row.additional_info))
          (canonicalReason row.additional_info, row)) from by simp [reasonPass1, hs]]
      by_cases hk : lowerStr (canonicalReason row.additional_info) = k
      · subst hk
        have hap := lookupS_appendPairAt_self m (lowerStr (canonicalReason row.additional_info))
          (canonicalReason row.additional_info, row)
        rw [h] at hap
        rw [reasonPass1_lookupS_some rest _ _ _ hap]
        rw [List.filter_cons_of_pos (by simp [hs])]
        simp
      · have hap := lookupS_appendPairAt_other m
          (lowerStr (canonicalReason row.additional_info)) k
          (canonicalReason row.additional_info, row) (Ne.symm hk)
        rw [reasonPass1_lookupS_none rest _ k (hap.trans h)]
        rw [List.filter_cons_of_neg (by simp [hk])]
    · rw [show reasonPass1 (row :: rest) m = reasonPass1 rest m from by simp [reasonPass1, hs]]
      rw [reasonPass1_lookupS_none rest m k h]
      rw [List.filter_cons_of_neg (by simp [hs])]

theorem appendRowsAt_not_mem : ∀ (out : List (Str × List Row)) (k : Str) (rs : List Row),
    k ∉ out.map Prod.fst → appendRowsAt out k rs = out ++ [(k, rs)]
  | [], _, _, _ => rfl
  | (k0, v) :: rest, k, rs, h => by
    have hne : k0 ≠ k := by
      intro hEq
      exact h (by rw [List.map_cons, hEq]; exact List.mem_cons_self _ _)
    simp only [appendRowsAt, if_neg hne, List.cons_append]
    rw [appendRowsAt_not_mem rest k rs
      (fun hc => h (by rw [List.map_cons]; exact List.mem_cons_of_mem _ hc))]

theorem reasonPass2_nomerge : ∀ (m : List (Str × List (Str × Row))) (out : List (Str × List Row)),
    (∀ e ∈ m, e.2 ≠ []) →
    (out.map Prod.fst ++ m.map (fun e => displayKey e.2)).Nodup →
    reasonPass2 m out = out ++ m.map (fun e => (displayKey e.2, e.2.map Prod.snd))
  | [], out, _, _ => by simp [reasonPass2]
  | (k, pairs) :: rest, out, hne, hnd => by
    cases pairs with
    | nil => exact absurd rfl (hne (k, []) (List.mem_cons_self _ _))
    | cons pr t =>
      rw [show reasonPass2 ((k, pr :: t) :: rest) out =
        reasonPass2 rest (appendRowsAt out pr.1 ((pr :: t).map Prod.snd)) from rfl]
      have hmap : ((k, pr :: t) :: rest).map (fun e => displayKey e.2) =
          pr.1 :: rest.map (fun e => displayKey e.2) := rfl
      rw [hmap] at hnd
      have hnotin : pr.1 ∉ out.map Prod.fst := by
        rw [List.nodup_append] at hnd
        exact fun hc => hnd.2.2 hc (List.mem_cons_self _ _)
      rw [appendRowsAt_not_mem out pr.1 _ hnotin]
      have hnd' : ((out ++ [(pr.1, (pr :: t).map Prod.snd)]).map Prod.fst ++
          rest.map (fun e => displayKey e.2)).Nodup := by
        simpa using hnd
      rw [reasonPass2_nomerge rest _ (fun e he => hne e (List.mem_cons_of_mem _ he)) hnd']
      rw [List.append_assoc]
      rfl

theorem reasonPass1_nonempty (rows : List Row) :
    ∀ e ∈ reasonPass1 rows [], e.2 ≠ [] := by
  intro e he
  obtain ⟨⟨pr, t, hpt⟩, _⟩ :=
    reasonPass1_inv rows [] (fun e' he' => absurd he' (List.not_mem_nil e')) e he
  rw [hpt]
  simp

theorem reasonPass1_display (rows : List Row) :
    ∀ e ∈ reasonPass1 rows [], lowerStr (displayKey e.2) = e.1 := by
  intro e he
  obtain ⟨⟨pr, t, hpt⟩, hall⟩ :=
    reasonPass1_inv rows [] (fun e' he' => absurd he' (List.not_mem_nil e')) e he
  rw [hpt]
  exact (hall pr (by rw [hpt]; exact List.mem_cons_self _ _)).2.2

theorem get_rows_by_slurm_reason_eq (rows : List Row) :
    get_rows_by_slurm_reason rows =
      (reasonPass1 rows []).map (fun e => (displayKey e.2, e.2.map Prod.snd)) := by
  have hkeys : ((reasonPass1 rows []).map Prod.fst).Nodup :=
    reasonPass1_keys_nodup rows [] (by simp)
  have hdispnd : ((reasonPass1 rows []).map (fun e => displayKey e.2)).Nodup := by
    have hcomp : ((reasonPass1 rows []).map (fun e => displayKey e.2)).map lowerStr =
        (reasonPass1 rows []).map Prod.fst := by
      rw [List.map_map]
      exact List.map_congr_left (fun e he => reasonPass1_display rows e he)
    exact List.Nodup.of_map lowerStr (by rw [hcomp]; exact hkeys)
  have h := reasonPass2_nomerge (reasonPass1 rows []) [] (reasonPass1_nonempty rows)
    (by simpa using hdispnd)
  simpa [get_rows_by_slurm_reason] using h

theorem get_rows_by_slurm_reason_keys_nodup (rows : List Row) :
    ((get_rows_by_slurm_reason rows).map (fun g => lowerStr g.1)).Nodup := by
  rw [get_rows_by_slurm_reason_eq, List.map_map]
  have hcomp : ((fun g : Str × List Row => lowerStr g.1) ∘
      (fun e : Str × List (Str × Row) => (displayKey e.2, e.2.map Prod.snd))) =
      fun e : Str × List (Str × Row) => lowerStr (displayKey e.2) := rfl
  rw [hcomp]
  rw [List.map_congr_left (fun e he => reasonPass1_display rows e he)]
  exact reasonPass1_keys_nodup rows [] (by simp)

theorem get_rows_by_slurm_reason_groups (rows : List Row) :
    ∀ g ∈ get_rows_by_slurm_reason rows,
      g.2 = rows.filter (fun r => decide (r.service = str "SLURM") &&
        decide (lowerStr (canonicalReason r.additional_info) = lowerStr g.1)) := by
  intro g hg
  rw [get_rows_by_slurm_reason_eq] at hg
  obtain ⟨e, he, rfl⟩ := List.mem_map.mp hg
  have hkeys : ((reasonPass1 rows []).map Prod.fst).Nodup :=
    reasonPass1_keys_nodup rows [] (by simp)
  have hk : lowerStr (displayKey e.2) = e.1 := reasonPass1_display rows e he
  have hlook := lookupS_of_mem_nodup _ e hkeys he
  have h6 := reasonPass1_lookupS_none rows [] e.1 rfl
  rw [hlook] at h6
  by_cases hisE : (rows.filter (fun r => decide (r.service = str "SLURM") &&
      decide (lowerStr (canonicalReason r.additional_info) = e.1))).isEmpty = true
  · rw [if_pos hisE] at h6
    cases h6
  · rw [if_neg hisE] at h6
    injection h6 with h6
    show e.2.map Prod.snd = _
    rw [hk, h6, List.map_map]
    have hid : (Prod.snd ∘ fun r : Row => (canonicalReason r.additional_info, r)) = id := rfl
    rw [hid, List.map_id]

theorem get_rows_by_slurm_reason_complete (rows : List Row) :
    ∀ r ∈ rows, r.service = str "SLURM" →
      ∃ g ∈ get_rows_by_slurm_reason rows,
        lowerStr (canonicalReason r.additional_info) = lowerStr g.1 := by
  intro r hr hs
  have hfil : r ∈ rows.filter (fun r' => decide (r'.service = str "SLURM") &&
      decide (lowerStr (canonicalReason r'.additional_info) =
        lowerStr (canonicalReason r.additional_info))) :=
    List.mem_filter.mpr ⟨hr, by simp [hs]⟩
  have hnonnil := List.ne_nil_of_mem hfil
  have h6 := reasonPass1_lookupS_none rows [] (lowerStr (canonicalReason r.additional_info)) rfl
  rw [if_neg (by simpa [List.isEmpty_iff] using hnonnil)] at h6
  have hmem := lookupS_eq_some_mem _ _ _ h6
  rw [get_rows_by_slurm_reason_eq]
  refine ⟨_, List.mem_map_of_mem _ hmem, ?_⟩
  exact (reasonPass1_display rows _ hmem).symm

/-- C5: reason grouping. Every row in a group is a SLURM-service row whose
canonicalized reason (label stripped after the first colon when a
recognized label is present, whitespace runs collapsed, ends trimmed)
lowercases to the group key's lowercase form; each group's displayed
reason is the canonical-cased reason of the head of the group; the
groups' rows together are exactly the SLURM-service input rows, none
dropped or duplicated; the renderers' key ordering `sortKeysCI` is a
permutation of the group keys sorted by case-insensitive (lowercased
lexicographic) comparison. Moreover the grouping is genuinely keyed by
the lowercase canonical reason: distinct groups have distinct lowercase
keys (so there is exactly one group per lowercase key and rows whose
reasons differ only in case land in that one group), each group's row
list is exactly the input-order sublist of SLURM rows whose lowercase
canonical reason equals the group's lowercase key (so the group's head —
whose casing supplies the display name — is the first row encountered for
that key), and every SLURM row's key is the key of some group. -/
theorem C5_reason_grouping (rows : List Row) :
    (∀ g ∈ get_rows_by_slurm_reason rows, ∀ r ∈ g.2,
      r.service = str "SLURM" ∧
      lowerStr (canonicalReason r.additional_info) = lowerStr g.1) ∧
    (∀ g ∈ get_rows_by_slurm_reason rows, ∃ r t, g.2 = r :: t ∧
      g.1 = canonicalReason r.additional_info) ∧
    (((get_rows_by_slurm_reason rows).map Prod.snd).flatten).Perm
      (rows.filter (fun r => decide (r.service = str "SLURM"))) ∧
    (sortKeysCI ((get_rows_by_slurm_reason rows).map Prod.fst)).Perm
      ((get_rows_by_slurm_reason rows).map Prod.fst) ∧
    List.Chain' (fun a b => ciLe a b = true)
      (sortKeysCI ((get_rows_by_slurm_reason rows).map Prod.fst)) ∧
    ((get_rows_by_slurm_reason rows).map (fun g => lowerStr g.1)).Nodup ∧
    (∀ g1 ∈ get_rows_by_slurm_reason rows, ∀ g2 ∈ get_rows_by_slurm_reason rows,
      lowerStr g1.1 = lowerStr g2.1 → g1 = g2) ∧
    (∀ g ∈ get_rows_by_slurm_reason rows,
      g.2 = rows.filter (fun r => decide (r.service = str "SLURM") &&
        decide (lowerStr (canonicalReason r.additional_info) = lowerStr g.1))) ∧
    (∀ r ∈ rows, r.service = str "SLURM" →
      ∃ g ∈ get_rows_by_slurm_reason rows,
        lowerStr (canonicalReason r.additional_info) = lowerStr g.1) := by
  have hinv := reasonPass2_inv (reasonPass1 rows []) []
    (fun e he =>
      (reasonPass1_inv rows [] (fun e' he' => absurd he' (List.not_mem_nil e')) e he).2)
    (fun g hg => absurd hg (List.not_mem_nil g))
  exact ⟨fun g hg => (hinv g hg).2, fun g hg => (hinv g hg).1,
    get_rows_by_slurm_reason_flatten rows,
    sortLe_perm ciLe _, sortLe_chain' ciLe ciLe_total _,
    get_rows_by_slurm_reason_keys_nodup rows,
    fun g1 h1 g2 h2 heq =>
      List.inj_on_of_nodup_map (get_rows_by_slurm_reason_keys_nodup rows) h1 h2 heq,
    get_rows_by_slurm_reason_groups rows,
    get_rows_by_slurm_reason_complete rows⟩

/-! ## Lemmas about the two renderers -/

theorem lookupS_SLURM_CATEGORIES (cat lbl : Str)
    (h : lookupS cat SLURM_CATEGORIES = some lbl) :
    lbl = str "Hardware" ∨ lbl = str "NHC" ∨ lbl = str "Software" := by
  simp only [SLURM_CATEGORIES, lookupS] at h
  split_ifs at h <;> simp_all

theorem categoryHeaderHtml_eq (cat : Str) :
    categoryHeaderHtml cat = str "<th colspan=\"2\">" ++ categoryLabel cat ++ str "</th>" := by
  cases h : lookupS cat SLURM_CATEGORIES with
  | none =>
    simp only [categoryHeaderHtml, categoryLabel, h]
    decide
  | some lbl =>
    simp only [categoryHeaderHtml, categoryLabel, h]
    rw [show str " Issues</th>" = str " Issues" ++ str "</th>" from by decide]
    simp [List.append_assoc]

theorem categoryHeaderText_eq (cat : Str) :
    categoryHeaderText cat =
      (if categoryLabel cat = str "Other Issues" then str "\t" ++ categoryLabel cat ++ str "\n"
       else str "\n\t" ++ categoryLabel cat ++ str "\n") := by
  cases h : lookupS cat SLURM_CATEGORIES with
  | none =>
    simp only [categoryHeaderText, categoryLabel, h]
    decide
  | some lbl =>
    have hlbl := lookupS_SLURM_CATEGORIES cat lbl h
    simp only [categoryHeaderText, categoryLabel, h]
    rw [if_neg (by rcases hlbl with rfl | rfl | rfl <;> decide)]
    rw [show str " Issues\n" = str " Issues" ++ str "\n" from by decide]
    simp [List.append_assoc]

theorem clustersHtml_eq (m : List (Str × List Int)) : ∀ ks : List Str,
    clustersHtml m ks = (clustersContent m ks).map renderClustersHtml
  | [] => rfl
  | c :: cs => by
    have ih := clustersHtml_eq m cs
    cases h1 : get_node_list_string ((lookupS c m).getD []) with
    | none => simp [clustersHtml, clustersContent, h1]
    | some s =>
      cases h2 : clustersContent m cs with
      | none =>
        rw [h2] at ih
        simp [clustersHtml, clustersContent, h1, h2, ih]
      | some cc =>
        rw [h2] at ih
        simp [clustersHtml, clustersContent, h1, h2, ih, renderClustersHtml]

theorem clustersText_eq (m : List (Str × List Int)) : ∀ ks : List Str,
    clustersText m ks = (clustersContent m ks).map renderClustersText
  | [] => rfl
  | c :: cs => by
    have ih := clustersText_eq m cs
    cases h1 : get_node_list_string ((lookupS c m).getD []) with
    | none => simp [clustersText, clustersContent, h1]
    | some s =>
      cases h2 : clustersContent m cs with
      | none =>
        rw [h2] at ih
        simp [clustersText, clustersContent, h1, h2, ih]
      | some cc =>
        rw [h2] at ih
        simp [clustersText, clustersContent, h1, h2, ih, renderClustersText]

theorem reasonsHtml_eq (groups : List (Str × List Row)) : ∀ rs : List Str,
    reasonsHtml groups rs = (reasonsContent groups rs).map renderReasonsHtml
  | [] => rfl
  | r :: rs => by
    have ih := reasonsHtml_eq groups rs
    cases h1 : get_nodes_by_cluster ((lookupS r groups).getD []) with
    | none => simp [reasonsHtml, reasonsContent, h1]
    | some clusters =>
      have hc := clustersHtml_eq clusters (sortKeys (clusters.map Prod.fst))
      cases h2 : clustersContent clusters (sortKeys (clusters.map Prod.fst)) with
      | none =>
        rw [h2] at hc
        simp [reasonsHtml, reasonsContent, h1, h2, hc]
      | some cc =>
        rw [h2] at hc
        cases h3 : reasonsContent groups rs with
        | none =>
          rw [h3] at ih
          simp [reasonsHtml, reasonsContent, h1, h2, h3, hc, ih]
        | some rc =>
          rw [h3] at ih
          simp [reasonsHtml, reasonsContent, h1, h2, h3, hc, ih, renderReasonsHtml]

theorem reasonsText_eq (groups : List (Str × List Row)) : ∀ rs : List Str,
    reasonsText groups rs = (reasonsContent groups rs).map renderReasonsText
  | [] => rfl
  | r :: rs => by
    have ih := reasonsText_eq groups rs
    cases h1 : get_nodes_by_cluster ((lookupS r groups).getD []) with
    | none => simp [reasonsText, reasonsContent, h1]
    | some clusters =>
      have hc := clustersText_eq clusters (sortKeys (clusters.map Prod.fst))
      cases h2 : clustersContent clusters (sortKeys (clusters.map Prod.fst)) with
      | none =>
        rw [h2] at hc
        simp [reasonsText, reasonsContent, h1, h2, hc]
      | some cc =>
        rw [h2] at hc
        cases h3 : reasonsContent groups rs with
        | none =>
          rw [h3] at ih
          simp [reasonsText, reasonsContent, h1, h2, h3, hc, ih]
        | some rc =>
          rw [h3] at ih
          simp [reasonsText, reasonsContent, h1, h2, h3, hc, ih, renderReasonsText]

theorem catsHtml_eq : ∀ m : List (Str × List Row),
    catsHtml m = (digestContent m).map renderCatsHtml
  | [] => rfl
  | (cat, rows) :: rest => by
    have ih := catsHtml_eq rest
    have hr := reasonsHtml_eq (get_rows_by_slurm_reason rows)
      (sortKeysCI ((get_rows_by_slurm_reason rows).map Prod.fst))
    cases h1 : reasonsContent (get_rows_by_slurm_reason rows)
        (sortKeysCI ((get_rows_by_slurm_reason rows).map Prod.fst)) with
    | none =>
      rw [h1] at hr
      simp [catsHtml, digestContent, h1, hr]
    | some rc =>
      rw [h1] at hr
      cases h2 : digestContent rest with
      | none =>
        rw [h2] at ih
        simp [catsHtml, digestContent, h1, h2, hr, ih]
      | some more =>
        rw [h2] at ih
        simp only [catsHtml, digestContent, h1, h2, hr, ih, Option.map_some']
        rw [categoryHeaderHtml_eq]
        simp [renderCatsHtml, List.append_assoc]

theorem catsText_eq : ∀ m : List (Str × List Row),
    catsText m = (digestContent m).map renderCatsText
  | [] => rfl
  | (cat, rows) :: rest => by
    have ih := catsText_eq rest
    have hr := reasonsText_eq (get_rows_by_slurm_reason rows)
      (sortKeysCI ((get_rows_by_slurm_reason rows).map Prod.fst))
    cases h1 : reasonsContent (get_rows_by_slurm_reason rows)
        (sortKeysCI ((get_rows_by_slurm_reason rows).map Prod.fst)) with
    | none =>
      rw [h1] at hr
      simp [catsText, digestContent, h1, hr]
    | some rc =>
      rw [h1] at hr
      cases h2 : digestContent rest with
      | none =>
        rw [h2] at ih
        simp [catsText, digestContent, h1, h2, hr, ih]
      | some more =>
        rw [h2] at ih
        simp only [catsText, digestContent, h1, h2, hr, ih, Option.map_some']
        rw [categoryHeaderText_eq]
        simp [renderCatsText, List.append_assoc]

theorem digestContent_labels : ∀ (m : List (Str × List Row)) (t : DigestContent),
    digestContent m = some t → t.map Prod.fst = m.map (fun e => categoryLabel e.1)
  | [], t, h => by
    injection h with h
    rw [← h]
    rfl
  | (cat, rows) :: rest, t, h => by
    cases h1 : reasonsContent (get_rows_by_slurm_reason rows)
        (sortKeysCI ((get_rows_by_slurm_reason rows).map Prod.fst)) with
    | none =>
      rw [show digestContent ((cat, rows) :: rest) = none from by simp [digestContent, h1]] at h
      cases h
    | some rc =>
      cases h2 : digestContent rest with
      | none =>
        rw [show digestContent ((cat, rows) :: rest) = none from
          by simp [digestContent, h1, h2]] at h
        cases h
      | some more =>
        rw [show digestContent ((cat, rows) :: rest) = some ((categoryLabel cat, rc) :: more)
          from by simp [digestContent, h1, h2]] at h
        injection h with h
        rw [← h]
        simp [digestContent_labels rest more h2]

/-- C9: the two renderers are pure serializations of one common content
tree (`digestContent`): the same category labels in the same order, the
same reason display strings in case-insensitive alphabetical order, the
same cluster names in alphabetical order under each reason, and identical
compressed-range strings per cluster; on the pipeline's four-bucket input
the category labels are Hardware, NHC, Software, Other in that order. -/
theorem C9_renderers_agree (slurm_rows : List (Str × List Row)) :
    digest_slurm_problems_html slurm_rows = (digestContent slurm_rows).map renderContentHtml ∧
    digest_slurm_problems_text slurm_rows = (digestContent slurm_rows).map renderContentText ∧
    (∀ (rows : List Row) (t : DigestContent),
      digestContent (get_rows_by_slurm_category rows) = some t →
        t.map Prod.fst = [str "Hardware Issues", str "NHC Issues", str "Software Issues",
          str "Other Issues"]) := by
  refine ⟨?_, ?_, ?_⟩
  · unfold digest_slurm_problems_html renderContentHtml
    rw [catsHtml_eq]
    cases digestContent slurm_rows <;> rfl
  · unfold digest_slurm_problems_text renderContentText
    rw [catsText_eq]
    cases digestContent slurm_rows <;> rfl
  · intro rows t h
    rw [digestContent_labels _ _ h]
    simp only [get_rows_by_slurm_category, List.map_cons, List.map_nil]
    decide

end SlurmDigest
